import Mathlib

/-!
Verification of the orchestration logic in `AnalyticsChatAgent/agent.py`
(TranscriptAnalysis repository).

The Python code is shallowly embedded over `List Char` / `String`:

* `clean_sql` embeds `_clean_sql` (regex passes modelled as the character-level
  functions they compute on arbitrary input);
* `run_postgres_query` embeds the pure part of the query tool: the sanitize
  step, the SELECT-prefix gate, the row slice `rows[:max_rows]`, the per-cell
  truncation `_truncate_val`, payload construction, and `json.dumps` with
  `separators=(",", ":")` and the default `ensure_ascii=True`.  The database
  itself is an oracle `db : String → List PgRow`; the outcome records whether
  a connection was attempted and which statement was executed;
* `json_loads` is a standard JSON parser (the fragment produced here: no
  floats) used both to state the round-trip property and to model the
  `json.loads` preview step of the orchestrator;
* `routeOf` / `sqlFlowOf` embed the `chat` handler's routing decision and the
  SQL-branch post-stream processing (pattern extraction, message emission,
  summarizer prompt construction).

Unicode caveats, noted once here: Python's `str.strip` / `\s` whitespace set is
modelled by `pyIsSpace` (the standard Python whitespace characters); `\w` and
`re.IGNORECASE` are modelled on ASCII (`pyIsWordChar`, `lowerAscii`), which is
exact for every pattern occurring in the source (all-ASCII patterns).
-/

/-! ### Python string primitives -/

/-- Python whitespace (`str.isspace`, also the `\s` class of the `re` module
for `str` patterns): ASCII whitespace, the C1 separators, and the Unicode
space characters. -/
def pyIsSpace (c : Char) : Bool :=
  c == '\t' || c == '\n' || c == '\x0b' || c == '\x0c' || c == '\r' || c == ' ' ||
  c == '\x1c' || c == '\x1d' || c == '\x1e' || c == '\x1f' || c == '\x85' || c == '\xa0' ||
  c == '\u1680' || ('\u2000' ≤ c && c ≤ '\u200a') || c == '\u2028' || c == '\u2029' ||
  c == '\u202f' || c == '\u205f' || c == '\u3000'

/-- Drop the longest suffix whose characters satisfy `p`. -/
def dropEndWhile (p : Char → Bool) (l : List Char) : List Char :=
  (l.reverse.dropWhile p).reverse

/-- Python `str.strip()` on a character list. -/
def pyStripWs (l : List Char) : List Char :=
  dropEndWhile pyIsSpace (l.dropWhile pyIsSpace)

/-- Python `str.strip(q)` for a one-character set `q`. -/
def stripCharEnds (q : Char) (l : List Char) : List Char :=
  dropEndWhile (fun c => c == q) (l.dropWhile (fun c => c == q))

/-- `re.sub(r"\n", " ", s)`: replace every newline by a space. -/
def nlToSp (l : List Char) : List Char :=
  l.map (fun c => if c == '\n' then ' ' else c)

/-- ASCII lowercasing, the case folding used for the all-ASCII
`re.IGNORECASE` patterns of the source. -/
def lowerAscii (c : Char) : Char :=
  if 'A' ≤ c && c ≤ 'Z' then Char.ofNat (c.toNat + 32) else c

/-- Case-insensitive prefix test: the pattern is given lowercase, each input
character matches after `lowerAscii`. -/
def ciHasStart (pat : List Char) (s : List Char) : Bool :=
  match pat, s with
  | [], _ => true
  | _ :: _, [] => false
  | p :: ps, c :: cs => (lowerAscii c == p) && ciHasStart ps cs

/-- Python `sep.split` on a single-character separator (Python `s.split(";")`):
splitting `""` gives `[""]`, and separators at the ends give empty pieces. -/
def pySplit (sep : Char) : List Char → List (List Char)
  | [] => [[]]
  | c :: t =>
    if c == sep then [] :: pySplit sep t
    else
      match pySplit sep t with
      | [] => [[c]]
      | h :: r => (c :: h) :: r

/-! ### The SQL sanitizer `_clean_sql` -/

/-- Does the list start with three backticks? -/
def isTripleTick : List Char → Bool
  | a :: b :: d :: _ => a == '`' && b == '`' && d == '`'
  | _ => false

/-- `re.sub(r"^```sql\s*|^```\s*", "", sql, flags=re.IGNORECASE)`: both
alternatives are anchored, so at most the start of the string is rewritten;
the first alternative is tried first, and `\s*` is greedy. -/
def stripLeadFence (s : List Char) : List Char :=
  if ciHasStart ['`', '`', '`', 's', 'q', 'l'] s then (s.drop 6).dropWhile pyIsSpace
  else if isTripleTick s then (s.drop 3).dropWhile pyIsSpace
  else s

/-- `re.sub(r"```\s*$", "", sql)`: the leftmost occurrence of three backticks
followed by whitespace only (the greedy `\s*` reaches the end of the string,
covering also the `$`-before-final-newline position) is removed together with
everything after it. -/
def stripTailFence : List Char → List Char
  | [] => []
  | c :: t =>
    if isTripleTick (c :: t) && ((c :: t).drop 3).all pyIsSpace then []
    else c :: stripTailFence t

/-- The body of `_clean_sql` on a character list. -/
def clean_sql_chars (s : List Char) : List Char :=
  let a := pyStripWs s
  let b := stripLeadFence a
  let c := stripTailFence b
  let d := nlToSp c
  let e := stripCharEnds '\'' (stripCharEnds '"' (pyStripWs d))
  if e.contains ';' then
    match (((pySplit ';' e).map pyStripWs).filter (fun p => !p.isEmpty)) with
    | p :: _ => p
    | [] => e
  else e

/-- `_clean_sql`: normalize model output to a bare SQL string. -/
def clean_sql (s : String) : String := String.mk (clean_sql_chars s.data)

/-- ASCII word characters, the `\w` class (and hence `\b`) for the all-ASCII
patterns of the source. -/
def pyIsWordChar (c : Char) : Bool := c.isAlpha || c.isDigit || c == '_'

/-- `re.match(r"^\s*select\b", sql_clean, flags=re.IGNORECASE)`: optional
whitespace, then the word `select` ending at a word boundary. -/
def isSelectStmt (s : List Char) : Bool :=
  let t := s.dropWhile pyIsSpace
  ciHasStart ['s', 'e', 'l', 'e', 'c', 't'] t &&
    (match t.drop 6 with
     | [] => true
     | c :: _ => !pyIsWordChar c)

/-! ### JSON values, Python-compatible rendering (`json.dumps`) -/

/-- A JSON value of the fragment the executor serializes (no floats). -/
inductive Json where
  | null
  | bool (b : Bool)
  | int (n : Int)
  | str (s : String)
  | arr (items : List Json)
  | obj (members : List (String × Json))

/-- The character `0'..'9'` for a digit `d < 10`. -/
def digitChar (d : Nat) : Char := Char.ofNat (48 + d)

/-- Decimal digit characters, fuelled so that the recursion is structural
(and hence kernel-evaluable); any fuel of at least `n` computes the digits
of `n`, most significant first. -/
def natCharsF : Nat → Nat → List Char
  | 0, n => [digitChar n]
  | f + 1, n => if n < 10 then [digitChar n] else natCharsF f (n / 10) ++ [digitChar (n % 10)]

/-- Decimal digit characters of a natural number, most significant first. -/
def natChars (n : Nat) : List Char := natCharsF n n

/-- Decimal rendering of an integer, as Python `repr(int)`. -/
def intChars (n : Int) : List Char :=
  if n < 0 then '-' :: natChars n.natAbs else natChars n.natAbs

/-- Lowercase hex digit, as Python's `"%04x"`. -/
def hexDigitChar (d : Nat) : Char :=
  if d < 10 then Char.ofNat (48 + d) else Char.ofNat (87 + d)

/-- Four lowercase hex digits of `n < 0x10000`. -/
def hexSeq (n : Nat) : List Char :=
  [hexDigitChar (n / 4096 % 16), hexDigitChar (n / 256 % 16),
   hexDigitChar (n / 16 % 16), hexDigitChar (n % 16)]

/-- One character as `json.dumps` with `ensure_ascii=True` emits it: the
two-character escapes, printable ASCII verbatim, `\uXXXX` for everything else,
with a surrogate pair for characters beyond the BMP (Python computes the pair
by shifts; `/ 0x400` and `% 0x400` are the same values). -/
def escapeChar (c : Char) : List Char :=
  if c == '"' then ['\\', '"']
  else if c == '\\' then ['\\', '\\']
  else if c == '\n' then ['\\', 'n']
  else if c == '\r' then ['\\', 'r']
  else if c == '\t' then ['\\', 't']
  else if c == '\x08' then ['\\', 'b']
  else if c == '\x0c' then ['\\', 'f']
  else if 0x20 ≤ c.toNat && c.toNat ≤ 0x7e then [c]
  else if c.toNat < 0x10000 then '\\' :: 'u' :: hexSeq c.toNat
  else
    '\\' :: 'u' :: hexSeq (0xd800 + (c.toNat - 0x10000) / 0x400) ++
      '\\' :: 'u' :: hexSeq (0xdc00 + (c.toNat - 0x10000) % 0x400)

/-- A JSON string literal: quote, escaped characters, quote. -/
def renderQuoted (cs : List Char) : List Char :=
  '"' :: ((cs.map escapeChar).flatten ++ ['"'])

mutual
/-- `json.dumps(·, separators=(",", ":"))`: compact rendering, no added
whitespace. -/
def renderJson : Json → List Char
  | .null => "null".data
  | .bool true => "true".data
  | .bool false => "false".data
  | .int n => intChars n
  | .str s => renderQuoted s.data
  | .arr items => '[' :: (renderList items ++ [']'])
  | .obj members => '{' :: (renderPairs members ++ ['}'])
/-- Comma-joined rendering of array items. -/
def renderList : List Json → List Char
  | [] => []
  | [x] => renderJson x
  | x :: y :: t => renderJson x ++ ',' :: renderList (y :: t)
/-- Comma-joined rendering of `"key":value` members. -/
def renderPairs : List (String × Json) → List Char
  | [] => []
  | [(k, v)] => renderQuoted k.data ++ ':' :: renderJson v
  | (k, v) :: m :: t => renderQuoted k.data ++ ':' :: renderJson v ++ ',' :: renderPairs (m :: t)
end

/-- Serialize a JSON value to a string (the `json.dumps` call of the source). -/
def json_dumps (j : Json) : String := String.mk (renderJson j)

/-! ### A standard JSON parser (`json.loads`) -/

/-- JSON insignificant whitespace (also what `json.loads` skips). -/
def jsonWs (c : Char) : Bool := [' ', '\t', '\n', '\r'].contains c

/-- Skip insignificant whitespace. -/
def skipJsonWs (cs : List Char) : List Char := cs.dropWhile jsonWs

/-- ASCII decimal digit test. -/
def isDigitChar (c : Char) : Bool := '0' ≤ c && c ≤ '9'

/-- Value of a hex digit character. -/
def hexNibble (c : Char) : Option Nat :=
  if '0' ≤ c && c ≤ '9' then some (c.toNat - 48)
  else if 'a' ≤ c && c ≤ 'f' then some (c.toNat - 87)
  else if 'A' ≤ c && c ≤ 'F' then some (c.toNat - 55)
  else none

/-- Decode a single-character escape. -/
def escDecode (e : Char) : Option Char :=
  if e == '"' then some '"'
  else if e == '\\' then some '\\'
  else if e == '/' then some '/'
  else if e == 'b' then some '\x08'
  else if e == 'f' then some '\x0c'
  else if e == 'n' then some '\n'
  else if e == 'r' then some '\r'
  else if e == 't' then some '\t'
  else none

/-- The value of four hex digit characters. -/
def hex4 (a b d e : Char) : Option Nat :=
  match hexNibble a, hexNibble b, hexNibble d, hexNibble e with
  | some va, some vb, some vd, some ve => some (((va * 16 + vb) * 16 + vd) * 16 + ve)
  | _, _, _, _ => none

/-- Parse a JSON string body after the opening quote, returning the decoded
characters and the input after the closing quote.  `\uXXXX` escapes combine
surrogate pairs; lone surrogates and raw control characters are rejected
(as `json.loads` in its default strict mode). -/
def parseStringBodyF : Nat → List Char → Option (List Char × List Char)
  | 0, _ => none
  | _ + 1, [] => none
  | f + 1, c :: rest =>
    if c == '"' then some ([], rest)
    else if c == '\\' then
      match rest with
      | 'u' :: a :: b :: d :: e :: rest2 =>
        (match hex4 a b d e with
         | some n =>
           if 0xd800 ≤ n ∧ n ≤ 0xdbff then
             match rest2 with
             | '\\' :: 'u' :: a2 :: b2 :: d2 :: e2 :: rest3 =>
               (match hex4 a2 b2 d2 e2 with
                | some m =>
                  if 0xdc00 ≤ m ∧ m ≤ 0xdfff then
                    (parseStringBodyF f rest3).map (fun p =>
                      (Char.ofNat (0x10000 + (n - 0xd800) * 0x400 + (m - 0xdc00)) :: p.1, p.2))
                  else none
                | none => none)
             | _ => none
           else if 0xdc00 ≤ n ∧ n ≤ 0xdfff then none
           else (parseStringBodyF f rest2).map (fun p => (Char.ofNat n :: p.1, p.2))
         | none => none)
      | e :: rest2 =>
        (match escDecode e with
         | some ch => (parseStringBodyF f rest2).map (fun p => (ch :: p.1, p.2))
         | none => none)
      | [] => none
    else if c.toNat < 0x20 then none
    else (parseStringBodyF f rest).map (fun p => (c :: p.1, p.2))

/-- The string-body parser with enough fuel for its input (every recursive
call consumes at least one character, so `length + 1` steps always finish). -/
def parseStringBody (cs : List Char) : Option (List Char × List Char) :=
  parseStringBodyF (cs.length + 1) cs

/-- The longest digit run at the front, and what follows it. -/
def takeDigitRun (cs : List Char) : List Char × List Char :=
  (cs.takeWhile isDigitChar, cs.dropWhile isDigitChar)

/-- The value of a digit run. -/
def digitsVal (ds : List Char) : Nat :=
  ds.foldl (fun a c => 10 * a + (c.toNat - 48)) 0

mutual
/-- Recursive-descent JSON value parser (integer numbers), fuelled. -/
def parseJsonVal : Nat → List Char → Option (Json × List Char)
  | 0, _ => none
  | fuel + 1, cs =>
    match skipJsonWs cs with
    | 'n' :: 'u' :: 'l' :: 'l' :: r => some (.null, r)
    | 'f' :: 'a' :: 'l' :: 's' :: 'e' :: r => some (.bool false, r)
    | 't' :: 'r' :: 'u' :: 'e' :: r => some (.bool true, r)
    | '"' :: r => (parseStringBody r).map (fun p => (.str (String.mk p.1), p.2))
    | '[' :: r =>
      match skipJsonWs r with
      | ']' :: r' => some (.arr [], r')
      | r' => (parseJsonItems fuel r').map (fun p => (.arr p.1, p.2))
    | '{' :: r =>
      match skipJsonWs r with
      | '}' :: r' => some (.obj [], r')
      | r' => (parseJsonPairs fuel r').map (fun p => (.obj p.1, p.2))
    | '-' :: r =>
      match takeDigitRun r with
      | ([], _) => none
      | (ds, r') => some (.int (-(digitsVal ds : Int)), r')
    | c :: r =>
      if isDigitChar c then
        some (.int (digitsVal (takeDigitRun (c :: r)).1), (takeDigitRun (c :: r)).2)
      else none
    | [] => none
/-- One or more comma-separated array items up to the closing bracket. -/
def parseJsonItems : Nat → List Char → Option (List Json × List Char)
  | 0, _ => none
  | fuel + 1, cs =>
    match parseJsonVal fuel cs with
    | some (j, r) =>
      match skipJsonWs r with
      | ',' :: r2 => (parseJsonItems fuel r2).map (fun p => (j :: p.1, p.2))
      | ']' :: r2 => some ([j], r2)
      | _ => none
    | none => none
/-- One or more comma-separated object members up to the closing brace. -/
def parseJsonPairs : Nat → List Char → Option (List (String × Json) × List Char)
  | 0, _ => none
  | fuel + 1, cs =>
    match skipJsonWs cs with
    | '"' :: r =>
      match parseStringBody r with
      | some (k, r1) =>
        match skipJsonWs r1 with
        | ':' :: r2 =>
          match parseJsonVal fuel r2 with
          | some (v, r3) =>
            match skipJsonWs r3 with
            | ',' :: r4 => (parseJsonPairs fuel r4).map (fun p => ((String.mk k, v) :: p.1, p.2))
            | '}' :: r4 => some ([(String.mk k, v)], r4)
            | _ => none
          | none => none
        | _ => none
      | none => none
    | _ => none
end

/-- `json.loads`: parse a complete document, allowing trailing whitespace. -/
def json_loads (s : String) : Option Json :=
  match parseJsonVal (s.data.length + 1) s.data with
  | some (j, r) => if (skipJsonWs r).isEmpty then some j else none
  | none => none

/-! ### The query executor `run_postgres_query` -/

/-- A database cell value as the tool sees it after `dict(r)`: strings,
integers, booleans, NULLs, and any other driver type, which `json.dumps`
serializes through `default=str` (carried here as its `str()` text). -/
inductive PgValue where
  | str (s : String)
  | int (n : Int)
  | bool (b : Bool)
  | null
  | other (text : String)
deriving DecidableEq, Repr

/-- A fetched row converted to a key-value mapping (`dict(r)`). -/
abbrev PgRow := List (String × PgValue)

/-- `_truncate_val`: truncate an oversized string cell to
`max_len - 3` characters plus `"..."`. -/
def truncate_val (v : PgValue) (max_len : Nat := 2000) : PgValue :=
  match v with
  | .str s =>
    if s.data.length > max_len then .str (String.mk (s.data.take (max_len - 3) ++ ['.', '.', '.']))
    else .str s
  | v => v

/-- Python list slicing `l[:n]`, including the negative-stop case. -/
def pyListSlice (n : Int) (l : List α) : List α :=
  if 0 ≤ n then l.take n.toNat else l.take (l.length - (-n).toNat)

/-- The payload dict built by `run_postgres_query` before serialization. -/
structure QueryPayload where
  row_count : Nat
  returned_rows : Nat
  columns : List String
  rows : List PgRow
deriving DecidableEq, Repr

/-- One row with every cell value truncated (`{k: _truncate_val(v) ...}`). -/
def truncateRow (r : PgRow) : PgRow := r.map (fun kv => (kv.1, truncate_val kv.2))

/-- Payload construction from the fetched rows: slice to `max_rows`, truncate
each cell, take the column names from the first returned row. -/
def buildPayload (fetched : List PgRow) (max_rows : Int) : QueryPayload :=
  let list_rows := (pyListSlice max_rows fetched).map truncateRow
  { row_count := fetched.length
    returned_rows := list_rows.length
    columns := match list_rows with | [] => [] | r :: _ => r.map Prod.fst
    rows := list_rows }

/-- A cell value as `json.dumps(·, default=str)` serializes it. -/
def pgValueJson : PgValue → Json
  | .str s => .str s
  | .int n => .int n
  | .bool b => .bool b
  | .null => .null
  | .other text => .str text

/-- One returned row as a JSON object. -/
def rowJson (r : PgRow) : Json := .obj (r.map (fun kv => (kv.1, pgValueJson kv.2)))

/-- The payload as the JSON value the tool serializes. -/
def payloadJson (p : QueryPayload) : Json :=
  .obj [("row_count", .int p.row_count),
        ("returned_rows", .int p.returned_rows),
        ("columns", .arr (p.columns.map Json.str)),
        ("rows", .arr (p.rows.map rowJson))]

deriving instance DecidableEq for Except

/-- Outcome of one `run_postgres_query` call: whether `asyncpg.connect` was
reached, which statement was passed to `conn.fetch`, and the returned JSON
string or the raised error message. -/
structure QueryOutcome where
  connectionAttempted : Bool
  executed : Option String
  result : Except String String
deriving DecidableEq, Repr

/-- The pure content of `run_postgres_query(sql, max_rows)`: sanitize, gate on
the SELECT prefix before connecting, fetch through the database oracle `db`,
and serialize the bounded payload. -/
def run_postgres_query (db : String → List PgRow) (sql : String) (max_rows : Int := 100) :
    QueryOutcome :=
  let sql_clean := clean_sql sql
  if isSelectStmt sql_clean.data then
    { connectionAttempted := true
      executed := some sql_clean
      result := .ok (json_dumps (payloadJson (buildPayload (db sql_clean) max_rows))) }
  else
    { connectionAttempted := false
      executed := none
      result := .error "Only SELECT queries are allowed." }

/-! ### The orchestrator (`chat`) -/

/-- `re.search(r"ROUTE:\s*SQL", ·, re.IGNORECASE)` at one position: the
pattern's `\s*` is greedy but whitespace never matches `S`, so the match is
the literal token, any whitespace run, then `SQL`. -/
def routeTokenAt (s : List Char) : Bool :=
  ciHasStart ['r', 'o', 'u', 't', 'e', ':'] s &&
    ciHasStart ['s', 'q', 'l'] ((s.drop 6).dropWhile pyIsSpace)

/-- `re.search` tries every start position, leftmost first. -/
def routeTokenSearch : List Char → Bool
  | [] => routeTokenAt []
  | c :: t => routeTokenAt (c :: t) || routeTokenSearch t

/-- The routing decision of `chat`: the accumulated router text is stripped on
stream completion, then searched for the token; the default is `GENERAL`. -/
def routeOf (route_text : String) : String :=
  if routeTokenSearch (pyStripWs route_text.data) then "SQL" else "GENERAL"

/-- The claim's reading of the router contract: the text contains the literal
token `ROUTE: SQL` (one space), case-insensitively, anywhere. -/
def containsRouteSqlToken : List Char → Bool
  | [] => ciHasStart ['r', 'o', 'u', 't', 'e', ':', ' ', 's', 'q', 'l'] []
  | c :: t => ciHasStart ['r', 'o', 'u', 't', 'e', ':', ' ', 's', 'q', 'l'] (c :: t) ||
      containsRouteSqlToken t

/-- The suffix after the first occurrence of `pat`, scanning leftmost. -/
def afterFirstOcc (pat : List Char) : List Char → Option (List Char)
  | [] => if pat.isEmpty then some [] else none
  | c :: t => if pat.isPrefixOf (c :: t) then some ((c :: t).drop pat.length)
      else afterFirstOcc pat t

/-- `re.search(r"SQL:\s*(.*)", out)`: group 1 at the first occurrence of
`SQL:` — the greedy `\s*` may cross newlines, `(.*)` stops at one. -/
def sqlLineGroup (out : List Char) : Option (List Char) :=
  (afterFirstOcc ['S', 'Q', 'L', ':'] out).map
    (fun after => (after.dropWhile pyIsSpace).takeWhile (fun c => c != '\n'))

/-- The prefix of `cs` up to and including its last `'}'`, if any. -/
def upToLastBrace (cs : List Char) : Option (List Char) :=
  match cs.reverse.dropWhile (fun c => c != '}') with
  | [] => none
  | l => some l.reverse

/-- One attempt of `RESULT_JSON:\s*(\{.*\})` (with `re.DOTALL`) anchored at
the current position: the literal label, greedy whitespace, then a brace
group reaching the last closing brace of the remaining text. -/
def rjAttempt (s : List Char) : Option (List Char) :=
  if ['R', 'E', 'S', 'U', 'L', 'T', '_', 'J', 'S', 'O', 'N', ':'].isPrefixOf s then
    match (s.drop 12).dropWhile pyIsSpace with
    | '{' :: t => upToLastBrace ('{' :: t)
    | _ => none
  else none

/-- `re.search` of the `RESULT_JSON` pattern: leftmost successful attempt. -/
def rjGroup : List Char → Option (List Char)
  | [] => none
  | c :: t =>
    match rjAttempt (c :: t) with
    | some g => some g
    | none => rjGroup t

/-- The `generated_sql` variable of the SQL branch. -/
def generatedSqlOf (agent_output : String) : String :=
  match sqlLineGroup (pyStripWs agent_output.data) with
  | some g => clean_sql (String.mk g)
  | none => ""

/-- The `results_json` variable of the SQL branch (default `"{}"`). -/
def resultsJsonOf (agent_output : String) : String :=
  match rjGroup (pyStripWs agent_output.data) with
  | some g => String.mk g
  | none => "{}"

mutual
/-- Python `repr()` of a decoded JSON value (string escaping inside `repr` is
simplified to plain single quotes; no claim depends on it). -/
def pyReprJson : Json → String
  | .null => "None"
  | .bool true => "True"
  | .bool false => "False"
  | .int n => String.mk (intChars n)
  | .str s => "'" ++ s ++ "'"
  | .arr items => "[" ++ pyReprList items ++ "]"
  | .obj members => "\x7b" ++ pyReprPairs members ++ "\x7d"
/-- Comma-joined `repr` of list elements. -/
def pyReprList : List Json → String
  | [] => ""
  | [x] => pyReprJson x
  | x :: y :: t => pyReprJson x ++ ", " ++ pyReprList (y :: t)
/-- Comma-joined `repr` of dict entries. -/
def pyReprPairs : List (String × Json) → String
  | [] => ""
  | (k, v) :: [] => "'" ++ k ++ "': " ++ pyReprJson v
  | (k, v) :: m :: t => "'" ++ k ++ "': " ++ pyReprJson v ++ ", " ++ pyReprPairs (m :: t)
end

/-- Python `str()` of a decoded JSON value, as an f-string formats it:
strings verbatim, everything else through `repr`. -/
def pyStrJson : Json → String
  | .str s => s
  | j => pyReprJson j

/-- Python `dict.get(k, d)` on a decoded JSON object (`json.loads` keeps the
last of duplicate keys). -/
def dictGet (members : List (String × Json)) (k : String) (d : Json) : Json :=
  members.foldl (fun acc kv => if kv.1 == k then kv.2 else acc) d

/-- The `meta` preview line: built only when `json.loads` succeeds on the
extracted text; a parse failure — or a `.get` on a non-dict — is swallowed by
the bare `except` and leaves `meta` empty. -/
def metaOf (results_json : String) : Option String :=
  match json_loads results_json with
  | some (Json.obj members) =>
    some ("Rows returned: " ++ pyStrJson (dictGet members "returned_rows" (Json.int 0)) ++
      " (of " ++ pyStrJson (dictGet members "row_count" (Json.int 0)) ++ ")")
  | some _ => none
  | none => none

/-- The observable effects of the SQL branch of `chat` after the sql_agent
stream completes: the optional `Generated SQL` message, the optional
`Executed query` preview message, and the summarizer prompt. -/
structure SqlFlow where
  generated_sql : String
  results_json : String
  sqlMsg : Option String
  previewMsg : Option String
  summaryPrompt : String
deriving DecidableEq, Repr

/-- The claim's property stated declaratively: the text contains, case
insensitively, `ROUTE:` followed by zero or more whitespace characters and
then `SQL` (the regex `ROUTE:\s*SQL` of the source). -/
def RouteTokenRelaxed (t : String) : Prop :=
  ∃ pre tok ws sq post, t.data = pre ++ tok ++ ws ++ sq ++ post ∧
    tok.map lowerAscii = ['r', 'o', 'u', 't', 'e', ':'] ∧
    (∀ c ∈ ws, pyIsSpace c = true) ∧
    sq.map lowerAscii = ['s', 'q', 'l']

/-- Field access on a decoded JSON object (`json.loads` keeps the last of
duplicate keys); `none` on non-objects and absent keys. -/
def jsonField (j : Json) (k : String) : Option Json :=
  match j with
  | .obj members => members.foldl (fun acc kv => if kv.1 == k then some kv.2 else acc) none
  | _ => none

/-- A tail that cannot extend a rendered integer: empty or headed by a
non-digit.  Every delimiter following a value in rendered JSON qualifies. -/
def numStop : List Char → Bool
  | [] => true
  | c :: _ => !isDigitChar c

/-- The SQL branch of `chat` from the buffered agent output. -/
def sqlFlowOf (userMsg : String) (agent_output : String) : SqlFlow :=
  let generated_sql := generatedSqlOf agent_output
  let results_json := resultsJsonOf agent_output
  { generated_sql := generated_sql
    results_json := results_json
    sqlMsg :=
      if generated_sql ≠ "" ∧ generated_sql ≠ "RESULT_JSON: {}" then
        some ("Generated SQL:\n" ++ generated_sql)
      else none
    previewMsg := (metaOf results_json).map (fun m => "Executed query. " ++ m)
    summaryPrompt :=
      "User request: " ++ userMsg ++ "\n\nSQL used:\n" ++ generated_sql ++
        "\n\nResults (JSON):\n" ++ results_json ++
        "\n\nSummarize the results clearly for a business user." }

/-! ### Claim C1: non-SELECT statements are rejected before any connection -/

/-- C1.  For every input whose sanitized form does not start (modulo leading
whitespace, case-insensitively) with the word `select`, `run_postgres_query`
raises `Only SELECT queries are allowed.` and never attempts a database
connection, whatever the database contains and whatever `max_rows` is. -/
theorem run_postgres_query_rejects_non_select (db : String → List PgRow) (sql : String)
    (max_rows : Int) (h : isSelectStmt (clean_sql sql).data = false) :
    run_postgres_query db sql max_rows =
      { connectionAttempted := false
        executed := none
        result := .error "Only SELECT queries are allowed." } := by
  unfold run_postgres_query
  simp [h]

/-- Witness for C1 at the `WITH ... SELECT` statement of the claim: its prefix
is not `select`, so it is rejected without a connection attempt. -/
theorem run_postgres_query_rejects_non_select_witness :
    isSelectStmt (clean_sql "WITH t AS (SELECT 1) SELECT * FROM t").data = false ∧
    run_postgres_query (fun _ => [[("a", .int 1)]]) "WITH t AS (SELECT 1) SELECT * FROM t" 100 =
      { connectionAttempted := false
        executed := none
        result := .error "Only SELECT queries are allowed." } :=
  ⟨by decide, run_postgres_query_rejects_non_select _ _ _ (by decide)⟩

/-! ### Claim C3: oversized string cells are truncated to exactly 2000 chars -/

/-- C3.  A string cell longer than 2000 characters is replaced by its first
1997 characters followed by the 3-character ellipsis `...`, of length
exactly 2000. -/
theorem truncate_val_oversized (s : String) (h : s.length > 2000) :
    truncate_val (.str s) = .str (String.mk (s.data.take 1997 ++ ['.', '.', '.'])) ∧
    (String.mk (s.data.take 1997 ++ ['.', '.', '.'])).length = 2000 := by
  have hd : s.data.length > 2000 := h
  constructor
  · simp only [truncate_val]
    rw [if_pos hd]
  · show (s.data.take 1997 ++ ['.', '.', '.']).length = 2000
    rw [List.length_append, List.length_take]
    simp
    omega

/-- Witness for C3 at a concrete 2001-character string. -/
theorem truncate_val_oversized_witness :
    (String.mk (List.replicate 2001 'a')).length > 2000 ∧
    (truncate_val (.str (String.mk (List.replicate 2001 'a'))) =
      .str (String.mk ((String.mk (List.replicate 2001 'a')).data.take 1997 ++ ['.', '.', '.'])) ∧
    (String.mk ((String.mk (List.replicate 2001 'a')).data.take 1997 ++ ['.', '.', '.'])).length = 2000) :=
  ⟨by show (List.replicate 2001 'a').length > 2000; rw [List.length_replicate]; omega,
   truncate_val_oversized _ (by show (List.replicate 2001 'a').length > 2000; rw [List.length_replicate]; omega)⟩

/-! ### Claim C7: fence-only and punctuation-only sanitizer inputs -/

/-- Counterexample to C7 as stated: an input consisting only of semicolons is
returned unchanged by `_clean_sql` (the statement split produces no non-empty
part, so `sql` is left untouched), not as the empty string. -/
theorem clean_sql_semicolons_counterexample :
    clean_sql ";;;" = ";;;" ∧ clean_sql ";;;" ≠ "" := by decide

/-- C7 as amended: an input that is only a code fence sanitizes to the empty
string, but an input that is only semicolons is returned unchanged. -/
theorem clean_sql_fence_only_and_punctuation_only :
    clean_sql "```" = "" ∧ clean_sql "```sql" = "" ∧ clean_sql "``` " = "" ∧
    clean_sql "``` ```" = "" ∧ clean_sql ";;;" = ";;;" ∧ clean_sql ";" = ";" := by decide

/-! ### Claim C10: the executor sanitizes its own argument -/

/-- C10.  `run_postgres_query` applies `_clean_sql` to its argument before the
SELECT gate, and the statement passed to `conn.fetch` is exactly the sanitized
text: a fenced or quoted SELECT is accepted as-is, and of a multi-statement
input only the first non-empty statement is executed. -/
theorem run_postgres_query_executes_sanitized (db : String → List PgRow) (sql : String)
    (max_rows : Int) :
    ((run_postgres_query db sql max_rows).executed =
      (if isSelectStmt (clean_sql sql).data then some (clean_sql sql) else none)) ∧
    ((run_postgres_query db sql max_rows).connectionAttempted = isSelectStmt (clean_sql sql).data) ∧
    (run_postgres_query db "```sql\nSELECT a FROM t\n```" max_rows).executed = some "SELECT a FROM t" ∧
    (run_postgres_query db "\"SELECT a FROM t\"" max_rows).executed = some "SELECT a FROM t" ∧
    (run_postgres_query db "SELECT a FROM t; DROP TABLE t" max_rows).executed = some "SELECT a FROM t" := by
  refine ⟨?_, ?_, rfl, rfl, rfl⟩ <;>
    by_cases h : isSelectStmt (clean_sql sql).data <;> simp [run_postgres_query, h]

/-! ### Claim C2: payload bounds and the columns/rows emptiness relation -/

/-- Counterexample to C2 as stated: with the result set `[{}, {}]` (two
zero-column rows, as `SELECT;` returns) and `max_rows = -1` (a value Python
slicing accepts, dropping the last row), the payload has `returned_rows = 1`,
violating `returned_rows ≤ max_rows`, and its `columns` is empty while `rows`
is not, violating the claimed equivalence. -/
theorem payload_bounds_counterexample :
    ¬ ((((buildPayload ([[], []] : List PgRow) (-1)).returned_rows : Int) ≤ -1) ∧
       (buildPayload ([[], []] : List PgRow) (-1)).returned_rows ≤
         (buildPayload ([[], []] : List PgRow) (-1)).row_count ∧
       ((buildPayload ([[], []] : List PgRow) (-1)).columns = [] ↔
         (buildPayload ([[], []] : List PgRow) (-1)).rows = [])) := by decide

/-- C2 as amended: for every result set and every `max_rows ≥ 0`,
`returned_rows ≤ max_rows` and `returned_rows ≤ row_count`; empty `rows`
always forces empty `columns`, and the equivalence `columns = [] ↔ rows = []`
holds whenever every fetched row has at least one column. -/
theorem payload_bounds (fetched : List PgRow) (max_rows : Int) (hmr : 0 ≤ max_rows) :
    (((buildPayload fetched max_rows).returned_rows : Int) ≤ max_rows) ∧
    (buildPayload fetched max_rows).returned_rows ≤ (buildPayload fetched max_rows).row_count ∧
    ((buildPayload fetched max_rows).rows = [] → (buildPayload fetched max_rows).columns = []) ∧
    ((∀ r ∈ fetched, r ≠ []) →
      ((buildPayload fetched max_rows).columns = [] ↔ (buildPayload fetched max_rows).rows = [])) := by
  have hslice : pyListSlice max_rows fetched = fetched.take max_rows.toNat := by
    unfold pyListSlice
    rw [if_pos hmr]
  refine ⟨?_, ?_, ?_, ?_⟩
  · show ((((pyListSlice max_rows fetched).map truncateRow).length : Int) ≤ max_rows)
    rw [hslice, List.length_map, List.length_take]
    omega
  · show ((pyListSlice max_rows fetched).map truncateRow).length ≤ fetched.length
    rw [hslice, List.length_map, List.length_take]
    omega
  · intro h
    show (match (pyListSlice max_rows fetched).map truncateRow with
          | [] => []
          | r :: _ => r.map Prod.fst) = []
    have h' : (pyListSlice max_rows fetched).map truncateRow = [] := h
    rw [h']
  · intro hr
    have hcols : (buildPayload fetched max_rows).columns =
        (match (pyListSlice max_rows fetched).map truncateRow with
         | [] => ([] : List String)
         | r :: _ => r.map Prod.fst) := rfl
    have hrows : (buildPayload fetched max_rows).rows =
        (pyListSlice max_rows fetched).map truncateRow := rfl
    rw [hcols, hrows]
    cases hsl : pyListSlice max_rows fetched with
    | nil => simp
    | cons r t =>
      have hrf : r ∈ fetched := by
        have hmem2 : r ∈ pyListSlice max_rows fetched := by
          rw [hsl]; exact List.mem_cons_self ..
        rw [hslice] at hmem2
        exact List.take_subset _ _ hmem2
      have hrn : r ≠ [] := hr r hrf
      show (truncateRow r).map Prod.fst = [] ↔ truncateRow r :: t.map truncateRow = []
      simp [truncateRow, hrn]

/-- Witness for C2 as amended, at a one-row result set and the default
`max_rows = 100`. -/
theorem payload_bounds_witness :
    ((0 : Int) ≤ 100) ∧
    ((((buildPayload ([[("a", .int 1)]] : List PgRow) 100).returned_rows : Int) ≤ 100) ∧
     (buildPayload ([[("a", .int 1)]] : List PgRow) 100).returned_rows ≤
       (buildPayload ([[("a", .int 1)]] : List PgRow) 100).row_count ∧
     ((buildPayload ([[("a", .int 1)]] : List PgRow) 100).rows = [] →
       (buildPayload ([[("a", .int 1)]] : List PgRow) 100).columns = []) ∧
     ((∀ r ∈ ([[("a", .int 1)]] : List PgRow), r ≠ []) →
       ((buildPayload ([[("a", .int 1)]] : List PgRow) 100).columns = [] ↔
         (buildPayload ([[("a", .int 1)]] : List PgRow) 100).rows = []))) :=
  ⟨by decide, payload_bounds _ _ (by decide)⟩

/-! ### Claim C8: the empty-SQL / empty-JSON scenario -/

/-- Counterexample to C8 as stated: on the buffered output
`"SQL: \nRESULT_JSON: {}"` the orchestrator does send a row-count preview:
`json.loads("{}")` succeeds and `dict.get` supplies the `0` defaults, so
`meta` is non-empty and the `Executed query` message goes out. -/
theorem sql_branch_sentinel_counterexample :
    ¬ ((sqlFlowOf "Show me data" "SQL: \nRESULT_JSON: {}").sqlMsg = none ∧
       (sqlFlowOf "Show me data" "SQL: \nRESULT_JSON: {}").previewMsg = none ∧
       (sqlFlowOf "Show me data" "SQL: \nRESULT_JSON: {}").results_json = "{}") := by decide

/-- C8 as amended: on that output no SQL message is sent (the greedy `\s*` of
the `SQL:` pattern crosses the newline, so `generated_sql` is the sentinel
`RESULT_JSON: {}` itself, which the guard suppresses), the summarizer is
invoked with the empty-object JSON text — but the preview message
`Executed query. Rows returned: 0 (of 0)` is sent. -/
theorem sql_branch_sentinel_behavior :
    (sqlFlowOf "Show me data" "SQL: \nRESULT_JSON: {}").generated_sql = "RESULT_JSON: {}" ∧
    (sqlFlowOf "Show me data" "SQL: \nRESULT_JSON: {}").sqlMsg = none ∧
    (sqlFlowOf "Show me data" "SQL: \nRESULT_JSON: {}").previewMsg =
      some "Executed query. Rows returned: 0 (of 0)" ∧
    (sqlFlowOf "Show me data" "SQL: \nRESULT_JSON: {}").results_json = "{}" ∧
    (sqlFlowOf "Show me data" "SQL: \nRESULT_JSON: {}").summaryPrompt =
      "User request: Show me data\n\nSQL used:\nRESULT_JSON: {}\n\nResults (JSON):\n{}\n\nSummarize the results clearly for a business user." := by
  decide

/-! ### Claim C9: JSON parse failures are swallowed -/

/-- C9.  Whenever the extracted `RESULT_JSON` text fails JSON parsing, the
orchestrator sends no preview message (the exception is caught and `meta`
stays empty) and still builds the summarizer prompt around the raw text. -/
theorem preview_swallowed_on_parse_failure (userMsg agent_output : String)
    (h : json_loads (resultsJsonOf agent_output) = none) :
    (sqlFlowOf userMsg agent_output).previewMsg = none ∧
    (sqlFlowOf userMsg agent_output).summaryPrompt =
      "User request: " ++ userMsg ++ "\n\nSQL used:\n" ++ generatedSqlOf agent_output ++
        "\n\nResults (JSON):\n" ++ resultsJsonOf agent_output ++
        "\n\nSummarize the results clearly for a business user." := by
  refine ⟨?_, rfl⟩
  show (metaOf (resultsJsonOf agent_output)).map (fun m => "Executed query. " ++ m) = none
  unfold metaOf
  rw [h]
  rfl


/-- Witness for C9 at an output whose brace group is not valid JSON. -/
theorem preview_swallowed_on_parse_failure_witness :
    json_loads (resultsJsonOf "SQL: SELECT 1\nRESULT_JSON: {nope}") = none ∧
    ((sqlFlowOf "show data" "SQL: SELECT 1\nRESULT_JSON: {nope}").previewMsg = none ∧
     (sqlFlowOf "show data" "SQL: SELECT 1\nRESULT_JSON: {nope}").summaryPrompt =
       "User request: " ++ "show data" ++ "\n\nSQL used:\n" ++
         generatedSqlOf "SQL: SELECT 1\nRESULT_JSON: {nope}" ++
         "\n\nResults (JSON):\n" ++ resultsJsonOf "SQL: SELECT 1\nRESULT_JSON: {nope}" ++
         "\n\nSummarize the results clearly for a business user.") :=
  ⟨rfl, preview_swallowed_on_parse_failure "show data" "SQL: SELECT 1\nRESULT_JSON: {nope}" rfl⟩

/-! ### Claim C5: the routing decision -/

/-- Python whitespace characters are unchanged by ASCII lowercasing (none of
them is an uppercase ASCII letter). -/
theorem lowerAscii_of_space {c : Char} (h : pyIsSpace c = true) : lowerAscii c = c := by
  simp only [pyIsSpace, Bool.or_eq_true, beq_iff_eq, Bool.and_eq_true, decide_eq_true_iff] at h
  repeat' rcases h with h | h
  all_goals first
    | decide
    | (have hgt : ¬ (c ≤ 'Z') := not_le.mpr (lt_of_lt_of_le (by decide : 'Z' < '\u2000') h.1)
       simp [lowerAscii, hgt])

/-- A character whose ASCII lowercasing is a non-whitespace character is
itself non-whitespace. -/
theorem not_space_of_lower {c d : Char} (hl : lowerAscii c = d) (hd : pyIsSpace d = false) :
    pyIsSpace c = false := by
  by_cases hs : pyIsSpace c = true
  · rw [lowerAscii_of_space hs] at hl
    rw [hl]
    exact hd
  · simpa using hs

/-- `ciHasStart` succeeds exactly when the input splits into a chunk whose
lowercasing is the pattern, followed by anything. -/
theorem ciHasStart_iff (pat : List Char) (s : List Char) :
    ciHasStart pat s = true ↔ ∃ u v, s = u ++ v ∧ u.map lowerAscii = pat := by
  induction pat generalizing s with
  | nil =>
    constructor
    · intro _; exact ⟨[], s, rfl, rfl⟩
    · intro _; rfl
  | cons p ps ih =>
    cases s with
    | nil =>
      constructor
      · intro h; simp [ciHasStart] at h
      · rintro ⟨u, v, hs, hm⟩
        cases u with
        | nil => simp at hm
        | cons u0 u' => simp at hs
    | cons c cs =>
      simp only [ciHasStart, Bool.and_eq_true, beq_iff_eq, ih]
      constructor
      · rintro ⟨hp, u, v, hcs, hm⟩
        exact ⟨c :: u, v, by rw [hcs]; rfl, by simp [hm, hp]⟩
      · rintro ⟨u, v, hs, hm⟩
        cases u with
        | nil => simp at hm
        | cons u0 u' =>
          simp only [List.map_cons, List.cons.injEq] at hm
          obtain ⟨hm0, hm'⟩ := hm
          simp only [List.cons_append, List.cons.injEq] at hs
          obtain ⟨hc, hcs⟩ := hs
          exact ⟨by rw [hc, hm0], u', v, hcs, hm'⟩

/-- A successful `ciHasStart` needs at least the pattern's length of input. -/
theorem ciHasStart_length {pat s : List Char} (h : ciHasStart pat s = true) :
    pat.length ≤ s.length := by
  rcases (ciHasStart_iff pat s).mp h with ⟨u, v, hs, hm⟩
  rw [hs, List.length_append, ← hm, List.length_map]
  omega

/-- `dropWhile` over an append: either the first part is consumed entirely,
or the second is untouched. -/
theorem dropWhile_append_split (p : Char → Bool) (X Y : List Char) :
    (X ++ Y).dropWhile p =
      if (X.dropWhile p).isEmpty then Y.dropWhile p else X.dropWhile p ++ Y := by
  induction X with
  | nil => simp
  | cons x X' ih =>
    by_cases hx : p x
    · simpa [List.dropWhile_cons, hx] using ih
    · simp [List.dropWhile_cons, hx]

/-- `dropWhile` jumps over an all-satisfying block. -/
theorem dropWhile_append_all {p : Char → Bool} {ws : List Char}
    (hw : ∀ c ∈ ws, p c = true) (X : List Char) :
    (ws ++ X).dropWhile p = X.dropWhile p := by
  rw [dropWhile_append_split]
  have : ws.dropWhile p = [] := List.dropWhile_eq_nil_iff.mpr hw
  simp [this]

/-- The anchored route-token match, characterized by decomposition. -/
theorem routeTokenAt_iff (s : List Char) :
    routeTokenAt s = true ↔
      ∃ tok ws sq post, s = tok ++ (ws ++ (sq ++ post)) ∧
        tok.map lowerAscii = ['r', 'o', 'u', 't', 'e', ':'] ∧
        (∀ c ∈ ws, pyIsSpace c = true) ∧
        sq.map lowerAscii = ['s', 'q', 'l'] := by
  unfold routeTokenAt
  rw [Bool.and_eq_true, ciHasStart_iff, ciHasStart_iff]
  constructor
  · rintro ⟨⟨tok, v, hs, hmtok⟩, ⟨sq, post, hdrop, hmsq⟩⟩
    have hlen : tok.length = 6 := by
      have := congrArg List.length hmtok
      simpa using this
    have hv : s.drop 6 = v := by rw [hs, ← hlen, List.drop_left]
    rw [hv] at hdrop
    refine ⟨tok, v.takeWhile pyIsSpace, sq, post, ?_, hmtok, ?_, hmsq⟩
    · rw [hs, ← hdrop, List.takeWhile_append_dropWhile]
    · intro c hc
      exact List.mem_takeWhile_imp hc
  · rintro ⟨tok, ws, sq, post, hs, hmtok, hws, hmsq⟩
    have hlen : tok.length = 6 := by
      have := congrArg List.length hmtok
      simpa using this
    have hdrop : s.drop 6 = ws ++ (sq ++ post) := by
      rw [hs, ← hlen, List.drop_left]
    refine ⟨⟨tok, ws ++ (sq ++ post), hs, hmtok⟩, ⟨sq, post, ?_, hmsq⟩⟩
    rw [hdrop, dropWhile_append_all hws]
    cases sq with
    | nil => simp at hmsq
    | cons a sq' =>
      simp only [List.map_cons, List.cons.injEq] at hmsq
      have ha : pyIsSpace a = false := not_space_of_lower hmsq.1 (by decide)
      simp [List.dropWhile_cons, ha]

/-- `re.search` of the route token succeeds exactly when some suffix matches. -/
theorem routeTokenSearch_iff (s : List Char) :
    routeTokenSearch s = true ↔ ∃ pre rest, s = pre ++ rest ∧ routeTokenAt rest = true := by
  induction s with
  | nil =>
    constructor
    · intro h; simp [routeTokenSearch, routeTokenAt, ciHasStart] at h
    · rintro ⟨pre, rest, hs, hat⟩
      cases pre with
      | nil =>
        simp only [List.nil_append] at hs
        rw [← hs] at hat
        simp [routeTokenAt, ciHasStart] at hat
      | cons p0 pre' => simp at hs
  | cons c t ih =>
    simp only [routeTokenSearch, Bool.or_eq_true, ih]
    constructor
    · rintro (h | ⟨pre, rest, ht, hat⟩)
      · exact ⟨[], c :: t, rfl, h⟩
      · exact ⟨c :: pre, rest, by rw [List.cons_append, ht], hat⟩
    · rintro ⟨pre, rest, hs, hat⟩
      cases pre with
      | nil =>
        left
        simp only [List.nil_append] at hs
        rw [hs]
        exact hat
      | cons p0 pre' =>
        right
        simp only [List.cons_append, List.cons.injEq] at hs
        exact ⟨pre', rest, hs.2, hat⟩

/-- A whitespace head never begins a route-token match. -/
theorem routeTokenAt_cons_space {c : Char} (hc : pyIsSpace c = true) (l : List Char) :
    routeTokenAt (c :: l) = false := by
  have hcr : c ≠ 'r' := by
    rintro rfl
    exact absurd hc (by decide)
  simp [routeTokenAt, ciHasStart, lowerAscii_of_space hc, hcr]

/-- Searching after dropping leading whitespace is the same search. -/
theorem routeTokenSearch_dropWhile (l : List Char) :
    routeTokenSearch (l.dropWhile pyIsSpace) = routeTokenSearch l := by
  induction l with
  | nil => rfl
  | cons c t ih =>
    by_cases hc : pyIsSpace c
    · rw [List.dropWhile_cons, if_pos hc, ih]
      show routeTokenSearch t = routeTokenSearch (c :: t)
      simp [routeTokenSearch, routeTokenAt_cons_space hc]
    · rw [List.dropWhile_cons, if_neg hc]

/-- An all-whitespace text contains no route token. -/
theorem routeTokenSearch_all_space {ws : List Char} (hw : ∀ c ∈ ws, pyIsSpace c = true) :
    routeTokenSearch ws = false := by
  induction ws with
  | nil => rfl
  | cons w ws' ih =>
    simp only [routeTokenSearch, Bool.or_eq_false_iff]
    exact ⟨routeTokenAt_cons_space (hw w (List.mem_cons_self ..)) ws',
      ih (fun c hc => hw c (List.mem_cons_of_mem _ hc))⟩

/-- `ciHasStart` of a whitespace-free pattern ignores an all-whitespace tail. -/
theorem ciHasStart_append_space {pat : List Char} (hp : ∀ x ∈ pat, pyIsSpace x = false)
    {ws : List Char} (hw : ∀ c ∈ ws, pyIsSpace c = true) (l : List Char) :
    ciHasStart pat (l ++ ws) = ciHasStart pat l := by
  induction pat generalizing l with
  | nil => rfl
  | cons p ps ihp =>
    cases l with
    | nil =>
      simp only [List.nil_append]
      cases ws with
      | nil => rfl
      | cons w ws' =>
        have hwp : w ≠ p := by
          intro he
          rw [he] at hw
          have := hw p (List.mem_cons_self ..)
          rw [hp p (List.mem_cons_self ..)] at this
          cases this
        have : lowerAscii w = w := lowerAscii_of_space (hw w (List.mem_cons_self ..))
        simp [ciHasStart, this, hwp]
    | cons c t =>
      show ((lowerAscii c == p) && ciHasStart ps (t ++ ws))
        = ((lowerAscii c == p) && ciHasStart ps t)
      rw [ihp (fun x hx => hp x (List.mem_cons_of_mem _ hx)) t]

/-- An anchored route-token match ignores an all-whitespace tail. -/
theorem routeTokenAt_append_space {ws : List Char} (hw : ∀ c ∈ ws, pyIsSpace c = true)
    (l : List Char) : routeTokenAt (l ++ ws) = routeTokenAt l := by
  unfold routeTokenAt
  rw [ciHasStart_append_space (by decide) hw]
  by_cases hr : ciHasStart ['r', 'o', 'u', 't', 'e', ':'] l = true
  · simp only [hr, Bool.true_and]
    have hlen : 6 ≤ l.length := ciHasStart_length hr
    have hdrop : (l ++ ws).drop 6 = l.drop 6 ++ ws := List.drop_append_of_le_length hlen
    rw [hdrop, dropWhile_append_split]
    cases hdX : (l.drop 6).dropWhile pyIsSpace with
    | nil =>
      simp only [List.isEmpty_nil, if_true]
      have : ws.dropWhile pyIsSpace = [] := List.dropWhile_eq_nil_iff.mpr hw
      rw [this]
    | cons a X' =>
      simp only [List.isEmpty_cons, if_false, Bool.false_eq_true]
      exact ciHasStart_append_space (by decide) hw (a :: X')
  · have hA : ciHasStart ['r', 'o', 'u', 't', 'e', ':'] l = false := by
      cases hb : ciHasStart ['r', 'o', 'u', 't', 'e', ':'] l
      · rfl
      · exact absurd hb hr
    rw [hA]
    simp

/-- Searching ignores an all-whitespace suffix. -/
theorem routeTokenSearch_append_space {ws : List Char} (hw : ∀ c ∈ ws, pyIsSpace c = true)
    (l : List Char) : routeTokenSearch (l ++ ws) = routeTokenSearch l := by
  induction l with
  | nil => simpa using routeTokenSearch_all_space hw
  | cons c t ih =>
    show (routeTokenAt (c :: t ++ ws) || routeTokenSearch (t ++ ws))
      = (routeTokenAt (c :: t) || routeTokenSearch t)
    rw [routeTokenAt_append_space hw, ih]

/-- Stripping the router text does not change the search outcome. -/
theorem routeTokenSearch_strip (l : List Char) :
    routeTokenSearch (pyStripWs l) = routeTokenSearch l := by
  unfold pyStripWs
  set m := l.dropWhile pyIsSpace with hm
  have hdecomp : m = dropEndWhile pyIsSpace m ++ (m.reverse.takeWhile pyIsSpace).reverse := by
    unfold dropEndWhile
    conv_lhs => rw [← List.reverse_reverse m,
      ← List.takeWhile_append_dropWhile (p := pyIsSpace) (l := m.reverse)]
    rw [List.reverse_append]
  have hws : ∀ c ∈ (m.reverse.takeWhile pyIsSpace).reverse, pyIsSpace c = true := by
    intro c hc
    rw [List.mem_reverse] at hc
    exact List.mem_takeWhile_imp hc
  calc routeTokenSearch (dropEndWhile pyIsSpace m)
      = routeTokenSearch (dropEndWhile pyIsSpace m ++ (m.reverse.takeWhile pyIsSpace).reverse) :=
        (routeTokenSearch_append_space hws _).symm
    _ = routeTokenSearch m := by rw [← hdecomp]
    _ = routeTokenSearch l := routeTokenSearch_dropWhile l

/-- Counterexample to C5 as stated: the text `ROUTE:SQL` (no space) is routed
to SQL by the code's `ROUTE:\s*SQL` search, yet it does not contain the
literal token `ROUTE: SQL` case-insensitively. -/
theorem route_token_counterexample :
    ¬ ((routeOf "ROUTE:SQL" = "SQL") ↔ containsRouteSqlToken "ROUTE:SQL".data = true) := by
  decide

/-- C5 as amended: the orchestrator routes to SQL exactly when the router
text contains, case-insensitively, `ROUTE:` followed by zero or more
whitespace characters and then `SQL`; every other text — including malformed
output — yields GENERAL, with no error. -/
theorem routeOf_spec (t : String) :
    ((routeOf t = "SQL") ↔ RouteTokenRelaxed t) ∧
    (routeOf t = "SQL" ∨ routeOf t = "GENERAL") := by
  have hiff : routeTokenSearch t.data = true ↔ RouteTokenRelaxed t := by
    rw [routeTokenSearch_iff]
    constructor
    · rintro ⟨pre, rest, hsplit, hat⟩
      rcases (routeTokenAt_iff rest).mp hat with ⟨tok, ws, sq, post, hrest, h1, h2, h3⟩
      refine ⟨pre, tok, ws, sq, post, ?_, h1, h2, h3⟩
      rw [hsplit, hrest]
      simp [List.append_assoc]
    · rintro ⟨pre, tok, ws, sq, post, hsplit, h1, h2, h3⟩
      refine ⟨pre, tok ++ (ws ++ (sq ++ post)), ?_,
        (routeTokenAt_iff _).mpr ⟨tok, ws, sq, post, rfl, h1, h2, h3⟩⟩
      rw [hsplit]
      simp [List.append_assoc]
  constructor
  · unfold routeOf
    rw [routeTokenSearch_strip]
    by_cases h : routeTokenSearch t.data = true
    · rw [if_pos h]
      exact iff_of_true rfl (hiff.mp h)
    · rw [if_neg h]
      exact iff_of_false (by decide) (fun hr => h (hiff.mpr hr))
  · unfold routeOf
    by_cases h : routeTokenSearch (pyStripWs t.data) = true
    · left; rw [if_pos h]
    · right; rw [if_neg h]

/-! ### Claim C6: sanitizing a fenced block with trailing statements -/

/-- `dropEndWhile` passes through a blocking element: everything left of an
element the predicate rejects is kept. -/
theorem dropEndWhile_append_block {p : Char → Bool} {c : Char} (hc : p c = false)
    (A B : List Char) : dropEndWhile p (A ++ c :: B) = A ++ c :: dropEndWhile p B := by
  unfold dropEndWhile
  rw [List.reverse_append, List.reverse_cons, List.append_assoc, dropWhile_append_split]
  cases hB : (B.reverse.dropWhile p).isEmpty with
  | true =>
    have hBnil : B.reverse.dropWhile p = [] := by
      cases hx : B.reverse.dropWhile p
      · rfl
      · rw [hx] at hB; simp at hB
    simp [hBnil, List.dropWhile_cons, hc]
  | false =>
    simp [hB, List.dropWhile_cons, hc, List.reverse_append]

/-- `dropEndWhile` gives the empty list exactly on all-satisfying input. -/
theorem dropEndWhile_eq_nil_iff {p : Char → Bool} {l : List Char} :
    dropEndWhile p l = [] ↔ ∀ c ∈ l, p c = true := by
  unfold dropEndWhile
  rw [List.reverse_eq_nil_iff, List.dropWhile_eq_nil_iff]
  constructor
  · intro h c hc
    exact h c (List.mem_reverse.mpr hc)
  · intro h c hc
    exact h c (List.mem_reverse.mp hc)

/-- Members of `dropEndWhile p l` are members of `l`. -/
theorem mem_of_mem_dropEndWhile {p : Char → Bool} {l : List Char} {c : Char}
    (h : c ∈ dropEndWhile p l) : c ∈ l := by
  unfold dropEndWhile at h
  rw [List.mem_reverse] at h
  exact List.mem_reverse.mp ((List.dropWhile_sublist _).mem h)

/-- The head surviving a `dropWhile` fails the predicate. -/
theorem dropWhile_head_false {p : Char → Bool} {l : List Char} {a : Char} {t : List Char}
    (h : l.dropWhile p = a :: t) : p a = false := by
  induction l with
  | nil => simp at h
  | cons x xs ih =>
    rw [List.dropWhile_cons] at h
    by_cases hx : p x
    · rw [if_pos hx] at h
      exact ih h
    · rw [if_neg hx] at h
      injection h with h1 _
      subst h1
      simpa using hx

/-- Replacing newlines by spaces preserves whitespace-ness of each character. -/
theorem nlToSp_char_space (c : Char) :
    pyIsSpace (if c == '\n' then ' ' else c) = pyIsSpace c := by
  by_cases hc : c == '\n'
  · rw [if_pos hc]
    rw [show c = '\n' from by simpa using hc]
    decide
  · rw [if_neg hc]

/-- Newline replacement commutes with dropping leading whitespace. -/
theorem nlToSp_dropWhile (l : List Char) :
    (nlToSp l).dropWhile pyIsSpace = nlToSp (l.dropWhile pyIsSpace) := by
  induction l with
  | nil => rfl
  | cons c t ih =>
    show ((if c == '\n' then ' ' else c) :: nlToSp t).dropWhile pyIsSpace = _
    rw [List.dropWhile_cons, nlToSp_char_space c, List.dropWhile_cons]
    by_cases hc : pyIsSpace c
    · rw [if_pos hc, if_pos hc, ih]
    · rw [if_neg hc, if_neg hc]
      rfl

/-- Splitting at the first separator: a separator-free first chunk becomes the
first piece. -/
theorem pySplit_append_sep {sep : Char} {A : List Char} (h : ∀ c ∈ A, c ≠ sep)
    (B : List Char) : pySplit sep (A ++ sep :: B) = A :: pySplit sep B := by
  induction A with
  | nil => simp [pySplit]
  | cons a A' ih =>
    have ha : (a == sep) = false := by
      simp only [beq_eq_false_iff_ne, ne_eq]
      exact h a (List.mem_cons_self ..)
    show pySplit sep (a :: (A' ++ sep :: B)) = _
    rw [pySplit, if_neg (by simp [ha]), ih (fun c hc => h c (List.mem_cons_of_mem _ hc))]

/-- Removing a pure trailing fence from backtick-free text. -/
theorem stripTailFence_append {l : List Char} (h : ∀ c ∈ l, c ≠ '`') :
    stripTailFence (l ++ ['`', '`', '`']) = l := by
  induction l with
  | nil => rfl
  | cons c t ih =>
    have hc : (c == '`') = false := by
      simp only [beq_eq_false_iff_ne, ne_eq]
      exact h c (List.mem_cons_self ..)
    show stripTailFence (c :: (t ++ ['`', '`', '`'])) = c :: t
    rw [stripTailFence]
    have htr : isTripleTick (c :: (t ++ ['`', '`', '`'])) = false := by
      cases t with
      | nil => simp [isTripleTick, hc]
      | cons b y =>
        cases y with
        | nil => simp [isTripleTick, hc]
        | cons d z => simp [isTripleTick, hc]
    rw [htr]
    simp [ih (fun c hc => h c (List.mem_cons_of_mem _ hc))]

/-- One whitespace-strip / quote-strip pass keeps a chunk protected by a
non-stripped head and a `';'` barrier, stripping only beyond the barrier. -/
theorem strip_pair_keep {p : Char → Bool} {a : Char} (ha : p a = false)
    (hsep : p ';' = false) (X Z : List Char) :
    dropEndWhile p (((a :: X) ++ (';' :: Z)).dropWhile p) =
      (a :: X) ++ (';' :: dropEndWhile p Z) := by
  rw [List.cons_append, List.dropWhile_cons, if_neg (by simp [ha]), ← List.cons_append,
    dropEndWhile_append_block hsep]

/-- Counterexample to C6 as stated: a fenced first statement that is itself
single-quoted.  Quote stripping runs on the fused string before the statement
split, so only the left quote is removed and the result keeps a dangling
quote: it is neither the quote-stripped first statement nor quote-free. -/
theorem clean_sql_fenced_counterexample :
    clean_sql "```sql\n'SELECT 1';DROP TABLE t;\n```" = "SELECT 1'" ∧
    '\'' ∈ (clean_sql "```sql\n'SELECT 1';DROP TABLE t;\n```").data ∧
    clean_sql "```sql\n'SELECT 1';DROP TABLE t;\n```" ≠ "SELECT 1" := by decide

/-- C6 as amended: for a fenced SQL block whose first statement contains no
semicolon or backtick and does not begin with a quote character, followed by
`;` and trailing statements (backtick-free), the sanitizer returns exactly the
whitespace-stripped, newline-collapsed first statement — fence-free and
newline-free (interior quotes, if any, are kept; a quote *beginning* the
statement would be stripped from the left only, see the counterexample). -/
theorem clean_sql_fenced_first_stmt (stmt extra : String)
    (hs : ∀ c ∈ stmt.data, c ≠ ';' ∧ c ≠ '`')
    (he : ∀ c ∈ extra.data, c ≠ '`')
    (hnb : stmt.data.dropWhile pyIsSpace ≠ [])
    (hq : ∀ c, (stmt.data.dropWhile pyIsSpace).head? = some c → c ≠ '"' ∧ c ≠ '\'') :
    clean_sql ("```sql\n" ++ stmt ++ ";" ++ extra ++ "\n```")
      = String.mk (pyStripWs (nlToSp stmt.data)) ∧
    ∀ c ∈ pyStripWs (nlToSp stmt.data), c ≠ '\n' ∧ c ≠ '`' := by
  obtain ⟨a, A2, hA⟩ : ∃ a A2, stmt.data.dropWhile pyIsSpace = a :: A2 := by
    cases h : stmt.data.dropWhile pyIsSpace with
    | nil => exact absurd h hnb
    | cons x xs => exact ⟨x, xs, rfl⟩
  have hpa : pyIsSpace a = false := dropWhile_head_false hA
  obtain ⟨haq, haq'⟩ := hq a (by rw [hA]; rfl)
  have han : (a == '\n') = false := by
    simp only [beq_eq_false_iff_ne, ne_eq]
    rintro rfl
    exact absurd hpa (by decide)
  have hmemA : ∀ c ∈ a :: A2, c ∈ stmt.data := by
    intro c hc
    rw [← hA] at hc
    exact (List.dropWhile_sublist _).mem hc
  have hsa : ∀ c ∈ a :: A2, c ≠ ';' ∧ c ≠ '`' := fun c hc => hs c (hmemA c hc)
  -- names for the intermediate stages
  have hdata : ("```sql\n" ++ stmt ++ ";" ++ extra ++ "\n```").data
      = '`' :: '`' :: '`' :: 's' :: 'q' :: 'l' :: '\n' ::
        (stmt.data ++ (';' :: (extra.data ++ ('\n' :: '`' :: '`' :: ['`'])))) := by
    simp only [String.data_append, List.append_assoc]
    rfl
  have h1 : pyStripWs ('`' :: '`' :: '`' :: 's' :: 'q' :: 'l' :: '\n' ::
        (stmt.data ++ (';' :: (extra.data ++ ('\n' :: '`' :: '`' :: ['`'])))))
      = '`' :: '`' :: '`' :: 's' :: 'q' :: 'l' :: '\n' ::
        (stmt.data ++ (';' :: (extra.data ++ ('\n' :: '`' :: '`' :: ['`'])))) := by
    have hshape : '`' :: '`' :: '`' :: 's' :: 'q' :: 'l' :: '\n' ::
          (stmt.data ++ (';' :: (extra.data ++ ('\n' :: '`' :: '`' :: ['`']))))
        = ('`' :: '`' :: '`' :: 's' :: 'q' :: 'l' :: '\n' ::
          (stmt.data ++ (';' :: (extra.data ++ ('\n' :: '`' :: ['`']))))) ++ (('`' : Char) :: []) := by
      simp [List.append_assoc]
    unfold pyStripWs
    rw [List.dropWhile_cons, if_neg (by decide), hshape,
      dropEndWhile_append_block (by decide) _ ([] : List Char)]
    rfl
  have h2 : stripLeadFence ('`' :: '`' :: '`' :: 's' :: 'q' :: 'l' :: '\n' ::
        (stmt.data ++ (';' :: (extra.data ++ ('\n' :: '`' :: '`' :: ['`'])))))
      = (a :: A2) ++ (';' :: (extra.data ++ ('\n' :: '`' :: '`' :: ['`']))) := by
    unfold stripLeadFence
    have hciv : ciHasStart ['`', '`', '`', 's', 'q', 'l'] ('`' :: '`' :: '`' :: 's' :: 'q' :: 'l' ::
        '\n' :: (stmt.data ++ (';' :: (extra.data ++ ('\n' :: '`' :: '`' :: ['`']))))) = true := rfl
    rw [if_pos hciv]
    show (('\n' :: (stmt.data ++ (';' :: (extra.data ++ ('\n' :: '`' :: '`' :: ['`']))))).dropWhile
      pyIsSpace) = _
    rw [List.dropWhile_cons, if_pos (by decide), dropWhile_append_split, hA]
    simp
  have h3 : stripTailFence ((a :: A2) ++ (';' :: (extra.data ++ ('\n' :: '`' :: '`' :: ['`']))))
      = (a :: A2) ++ (';' :: (extra.data ++ ['\n'])) := by
    have hshape : (a :: A2) ++ (';' :: (extra.data ++ ('\n' :: '`' :: '`' :: ['`'])))
        = ((a :: A2) ++ (';' :: (extra.data ++ ['\n']))) ++ ['`', '`', '`'] := by
      simp [List.append_assoc]
    rw [hshape]
    apply stripTailFence_append
    intro c hc
    rcases List.mem_append.mp hc with hc | hc
    · exact (hsa c hc).2
    · rcases List.mem_cons.mp hc with rfl | hc
      · decide
      · rcases List.mem_append.mp hc with hc | hc
        · exact he c hc
        · rw [List.mem_singleton] at hc; subst hc; decide
  have h4 : nlToSp ((a :: A2) ++ (';' :: (extra.data ++ ['\n'])))
      = (a :: nlToSp A2) ++ (';' :: (nlToSp extra.data ++ [' '])) := by
    simp [nlToSp, han]
    intro hcon
    exact absurd hcon (by simpa using han)
  have h5 : pyStripWs ((a :: nlToSp A2) ++ (';' :: (nlToSp extra.data ++ [' '])))
      = (a :: nlToSp A2) ++ (';' :: dropEndWhile pyIsSpace (nlToSp extra.data ++ [' '])) :=
    strip_pair_keep hpa (by decide) _ _
  have h6 : stripCharEnds '"' ((a :: nlToSp A2) ++
        (';' :: dropEndWhile pyIsSpace (nlToSp extra.data ++ [' '])))
      = (a :: nlToSp A2) ++ (';' :: dropEndWhile (fun c => c == '"')
          (dropEndWhile pyIsSpace (nlToSp extra.data ++ [' ']))) :=
    strip_pair_keep (by simpa using haq) (by decide) _ _
  have h7 : stripCharEnds '\'' ((a :: nlToSp A2) ++ (';' :: dropEndWhile (fun c => c == '"')
          (dropEndWhile pyIsSpace (nlToSp extra.data ++ [' ']))))
      = (a :: nlToSp A2) ++ (';' :: dropEndWhile (fun c => c == '\'')
          (dropEndWhile (fun c => c == '"')
            (dropEndWhile pyIsSpace (nlToSp extra.data ++ [' '])))) :=
    strip_pair_keep (by simpa using haq') (by decide) _ _
  have hnosemi : ∀ c ∈ a :: nlToSp A2, c ≠ ';' := by
    intro c hc
    rcases List.mem_cons.mp hc with rfl | hc
    · exact (hsa c (by simp)).1
    · rcases List.mem_map.mp hc with ⟨c0, hc0, rfl⟩
      have := (hsa c0 (List.mem_cons_of_mem _ hc0)).1
      by_cases h0 : c0 == '\n'
      · rw [if_pos h0]; decide
      · rw [if_neg h0]; exact this
  have hne : pyStripWs (a :: nlToSp A2) ≠ [] := by
    unfold pyStripWs
    rw [List.dropWhile_cons, if_neg (by simp [hpa])]
    intro hcon
    have := dropEndWhile_eq_nil_iff.mp hcon a (by simp)
    rw [hpa] at this
    cases this
  have h9 : pyStripWs (a :: nlToSp A2) = pyStripWs (nlToSp stmt.data) := by
    have e1 : (a : Char) :: nlToSp A2 = nlToSp (a :: A2) := by
      simp only [nlToSp, List.map_cons]
      rw [if_neg (by simpa using han)]
    rw [e1, ← hA, ← nlToSp_dropWhile]
    unfold pyStripWs
    rw [List.dropWhile_idempotent]
  constructor
  · unfold clean_sql
    rw [hdata]
    suffices hcs : clean_sql_chars ('`' :: '`' :: '`' :: 's' :: 'q' :: 'l' :: '\n' ::
        (stmt.data ++ (';' :: (extra.data ++ ('\n' :: '`' :: '`' :: ['`'])))))
        = pyStripWs (nlToSp stmt.data) by rw [hcs]
    simp only [clean_sql_chars]
    rw [h1, h2, h3, h4, h5, h6, h7]
    have hcont : ((a :: nlToSp A2) ++ (';' :: dropEndWhile (fun c => c == '\'')
          (dropEndWhile (fun c => c == '"')
            (dropEndWhile pyIsSpace (nlToSp extra.data ++ [' ']))))).contains ';' = true :=
      List.elem_eq_true_of_mem (by simp)
    rw [if_pos hcont, pySplit_append_sep hnosemi, List.map_cons, List.filter_cons,
      if_pos (by simpa using hne)]
    exact h9
  · intro c hc
    have hc2 : c ∈ nlToSp stmt.data := by
      unfold pyStripWs at hc
      exact (List.dropWhile_sublist _).mem (mem_of_mem_dropEndWhile hc)
    rcases List.mem_map.mp hc2 with ⟨c0, hc0, rfl⟩
    obtain ⟨_, hbq⟩ := hs c0 hc0
    by_cases h0 : c0 == '\n'
    · rw [if_pos h0]
      exact ⟨by decide, by decide⟩
    · rw [if_neg h0]
      exact ⟨by simpa using h0, hbq⟩

/-- Witness for C6 as amended at a concrete fenced two-statement input. -/
theorem clean_sql_fenced_first_stmt_witness :
    ((∀ c ∈ ("SELECT *\nFROM conversations" : String).data, c ≠ ';' ∧ c ≠ '`') ∧
     (∀ c ∈ ("DROP TABLE conversations;" : String).data, c ≠ '`') ∧
     ("SELECT *\nFROM conversations" : String).data.dropWhile pyIsSpace ≠ [] ∧
     (∀ c, (("SELECT *\nFROM conversations" : String).data.dropWhile pyIsSpace).head? = some c →
       c ≠ '"' ∧ c ≠ '\'')) ∧
    (clean_sql ("```sql\n" ++ "SELECT *\nFROM conversations" ++ ";" ++ "DROP TABLE conversations;" ++ "\n```")
      = String.mk (pyStripWs (nlToSp ("SELECT *\nFROM conversations" : String).data)) ∧
    ∀ c ∈ pyStripWs (nlToSp ("SELECT *\nFROM conversations" : String).data), c ≠ '\n' ∧ c ≠ '`') :=
  ⟨⟨by decide, by decide, by decide, by decide⟩,
   clean_sql_fenced_first_stmt "SELECT *\nFROM conversations" "DROP TABLE conversations;"
     (by decide) (by decide) (by decide) (by decide)⟩

/-! ### Claim C4: serialization round-trip.  Decimal digits first. -/

/-- Basic facts about the ten digit characters, by enumeration. -/
theorem digitChar_facts : ∀ d < 10, (digitChar d).toNat = 48 + d ∧ isDigitChar (digitChar d) = true := by
  decide

/-- Hex digits decode back to their value, by enumeration. -/
theorem hexNibble_hexDigitChar : ∀ d < 16, hexNibble (hexDigitChar d) = some d := by
  decide

/-- Any sufficient fuel computes the same digits. -/
theorem natCharsF_fuel : ∀ (n f : Nat), n ≤ f → natCharsF f n = natChars n := by
  intro n
  induction n using Nat.strong_induction_on with
  | _ n ih =>
    intro f hf
    cases f with
    | zero =>
      have h0 : n = 0 := by omega
      subst h0
      rfl
    | succ g =>
      rw [natCharsF]
      by_cases h10 : n < 10
      · rw [if_pos h10]
        cases n with
        | zero => rfl
        | succ m =>
          unfold natChars
          rw [natCharsF, if_pos h10]
      · rw [if_neg h10]
        obtain ⟨m, rfl⟩ : ∃ m, n = m + 1 := ⟨n - 1, by omega⟩
        unfold natChars
        rw [natCharsF, if_neg h10]
        rw [ih ((m + 1) / 10) (by omega) g (by omega), ih ((m + 1) / 10) (by omega) m (by omega)]

/-- The usual one-step unfolding of the digits of `n`. -/
theorem natChars_unfold (n : Nat) :
    natChars n = if n < 10 then [digitChar n] else natChars (n / 10) ++ [digitChar (n % 10)] := by
  cases n with
  | zero => rfl
  | succ m =>
    show natCharsF (m + 1) (m + 1) = _
    rw [natCharsF]
    by_cases h10 : m + 1 < 10
    · rw [if_pos h10, if_pos h10]
    · rw [if_neg h10, if_neg h10, natCharsF_fuel _ m (by omega)]

/-- The digit rendering is never empty. -/
theorem natChars_ne_nil (n : Nat) : natChars n ≠ [] := by
  rw [natChars_unfold]
  split <;> simp

/-- Every rendered character is a digit. -/
theorem natChars_all_digits (n : Nat) : ∀ c ∈ natChars n, isDigitChar c = true := by
  induction n using Nat.strong_induction_on with
  | _ n ih =>
    rw [natChars_unfold]
    by_cases h10 : n < 10
    · rw [if_pos h10]
      intro c hc
      rw [List.mem_singleton] at hc
      subst hc
      exact (digitChar_facts n h10).2
    · rw [if_neg h10]
      intro c hc
      rcases List.mem_append.mp hc with hc | hc
      · exact ih (n / 10) (by omega) c hc
      · rw [List.mem_singleton] at hc
        subst hc
        exact (digitChar_facts (n % 10) (by omega)).2

/-- The rendered digits evaluate back to the number. -/
theorem digitsVal_natChars (n : Nat) : digitsVal (natChars n) = n := by
  induction n using Nat.strong_induction_on with
  | _ n ih =>
    rw [natChars_unfold]
    by_cases h10 : n < 10
    · rw [if_pos h10]
      show 10 * 0 + ((digitChar n).toNat - 48) = n
      rw [(digitChar_facts n h10).1]
      omega
    · rw [if_neg h10]
      unfold digitsVal
      rw [List.foldl_append]
      have hfold := ih (n / 10) (by omega)
      unfold digitsVal at hfold
      rw [hfold]
      show 10 * (n / 10) + ((digitChar (n % 10)).toNat - 48) = n
      rw [(digitChar_facts (n % 10) (by omega)).1]
      omega

/-- The digit run at the front of rendered digits followed by a stopper. -/
theorem takeDigitRun_append {ds rest : List Char} (hds : ∀ c ∈ ds, isDigitChar c = true)
    (hrest : numStop rest = true) : takeDigitRun (ds ++ rest) = (ds, rest) := by
  unfold takeDigitRun
  have h1 : (ds ++ rest).takeWhile isDigitChar = ds := by
    induction ds with
    | nil =>
      cases rest with
      | nil => rfl
      | cons r t =>
        have hr : isDigitChar r = false := by simpa [numStop] using hrest
        simp [List.takeWhile_cons, hr]
    | cons d ds' ih =>
      rw [List.cons_append, List.takeWhile_cons, if_pos (hds d (List.mem_cons_self ..)),
        ih (fun c hc => hds c (List.mem_cons_of_mem _ hc))]
  have h2 : (ds ++ rest).dropWhile isDigitChar = rest := by
    clear h1
    induction ds with
    | nil =>
      cases rest with
      | nil => rfl
      | cons r t =>
        have hr : isDigitChar r = false := by simpa [numStop] using hrest
        simp [List.dropWhile_cons, hr]
    | cons d ds' ih =>
      rw [List.cons_append, List.dropWhile_cons, if_pos (hds d (List.mem_cons_self ..)),
        ih (fun c hc => hds c (List.mem_cons_of_mem _ hc))]
  rw [h1, h2]

/-- The digit rendering decomposed as a cons with a digit head. -/
theorem natChars_head (n : Nat) : ∃ c t, natChars n = c :: t ∧ isDigitChar c = true := by
  cases h : natChars n with
  | nil => exact absurd h (natChars_ne_nil n)
  | cons c t => exact ⟨c, t, rfl, natChars_all_digits n c (h ▸ List.mem_cons_self ..)⟩

/-- Hex digits of the usual `n / 16^k % 16` shape decode unconditionally. -/
theorem hexNibble_hexDigitChar_mod (x : Nat) :
    hexNibble (hexDigitChar (x % 16)) = some (x % 16) :=
  hexNibble_hexDigitChar _ (Nat.mod_lt _ (by omega))

/-- Recomposing the four hex nibbles of a 16-bit value. -/
theorem hexSeq_recompose (x : Nat) (hx : x < 0x10000) :
    ((x / 4096 % 16 * 16 + x / 256 % 16) * 16 + x / 16 % 16) * 16 + x % 16 = x := by
  omega

/-- The four digits produced by `hexSeq` decode to the encoded value. -/
theorem hex4_hexSeq (x : Nat) (hx : x < 0x10000) :
    hex4 (hexDigitChar (x / 4096 % 16)) (hexDigitChar (x / 256 % 16))
      (hexDigitChar (x / 16 % 16)) (hexDigitChar (x % 16)) = some x := by
  unfold hex4
  rw [hexNibble_hexDigitChar_mod, hexNibble_hexDigitChar_mod, hexNibble_hexDigitChar_mod,
    hexNibble_hexDigitChar_mod]
  show some (((x / 4096 % 16 * 16 + x / 256 % 16) * 16 + x / 16 % 16) * 16 + x % 16) = some x
  rw [hexSeq_recompose x hx]

/-- One definitional step of `parseStringBodyF` at a `\u` escape. -/
theorem psb_u_step (f : Nat) (d1 d2 d3 d4 : Char) (tl : List Char) :
    parseStringBodyF (f + 1) ('\\' :: 'u' :: d1 :: d2 :: d3 :: d4 :: tl)
      = (match hex4 d1 d2 d3 d4 with
         | some n =>
           if 0xd800 ≤ n ∧ n ≤ 0xdbff then
             match tl with
             | '\\' :: 'u' :: a2 :: b2 :: d2' :: e2 :: rest3 =>
               (match hex4 a2 b2 d2' e2 with
                | some m =>
                  if 0xdc00 ≤ m ∧ m ≤ 0xdfff then
                    (parseStringBodyF f rest3).map (fun p =>
                      (Char.ofNat (0x10000 + (n - 0xd800) * 0x400 + (m - 0xdc00)) :: p.1, p.2))
                  else none
                | none => none)
             | _ => none
           else if 0xdc00 ≤ n ∧ n ≤ 0xdfff then none
           else (parseStringBodyF f tl).map (fun p => (Char.ofNat n :: p.1, p.2))
         | none => none) := rfl

/-- Parsing one escaped character undoes `escapeChar`, whatever follows:
one unit of fuel per escape. -/
theorem psb_f_escape (f : Nat) (c : Char) (tail : List Char) :
    parseStringBodyF (f + 1) (escapeChar c ++ tail)
      = (parseStringBodyF f tail).map (fun p => (c :: p.1, p.2)) := by
  have hval : c.toNat < 0xd800 ∨ (0xdfff < c.toNat ∧ c.toNat < 0x110000) := c.valid
  unfold escapeChar
  split_ifs with h1 h2 h3 h4 h5 h6 h7 h8 h9
  · rw [show c = '"' from by simpa using h1]; rfl
  · rw [show c = '\\' from by simpa using h2]; rfl
  · rw [show c = '\n' from by simpa using h3]; rfl
  · rw [show c = '\r' from by simpa using h4]; rfl
  · rw [show c = '\t' from by simpa using h5]; rfl
  · rw [show c = '\x08' from by simpa using h6]; rfl
  · rw [show c = '\x0c' from by simpa using h7]; rfl
  · -- printable ASCII kept verbatim
    rw [Bool.and_eq_true, decide_eq_true_iff, decide_eq_true_iff] at h8
    show parseStringBodyF (f + 1) (c :: tail) = _
    rw [parseStringBodyF.eq_def]
    simp only []
    rw [if_neg (by simpa using h1), if_neg (by simpa using h2), if_neg (by omega)]
  · -- BMP character escaped as a single \uXXXX
    show parseStringBodyF (f + 1) ('\\' :: 'u' :: hexSeq c.toNat ++ tail) = _
    simp only [hexSeq, List.cons_append, List.nil_append]
    rw [psb_u_step, hex4_hexSeq c.toNat h9]
    simp only []
    rcases hval with hv | hv
    · rw [if_neg (by omega), if_neg (by omega), Char.ofNat_toNat]
    · rw [if_neg (by omega), if_neg (by omega), Char.ofNat_toNat]
  · -- astral character escaped as a surrogate pair
    have hup : c.toNat < 0x110000 := by
      rcases hval with hv | hv
      · omega
      · exact hv.2
    have hlow : 0x10000 ≤ c.toNat := by omega
    show parseStringBodyF (f + 1)
      (('\\' :: 'u' :: hexSeq (0xd800 + (c.toNat - 0x10000) / 0x400) ++
        '\\' :: 'u' :: hexSeq (0xdc00 + (c.toNat - 0x10000) % 0x400)) ++ tail) = _
    simp only [hexSeq, List.cons_append, List.nil_append, List.append_assoc]
    rw [psb_u_step, hex4_hexSeq (0xd800 + (c.toNat - 0x10000) / 0x400) (by omega)]
    simp only []
    rw [if_pos (by omega : (0xd800 : ℕ) ≤ 0xd800 + (c.toNat - 0x10000) / 0x400 ∧
        0xd800 + (c.toNat - 0x10000) / 0x400 ≤ 0xdbff)]
    rw [hex4_hexSeq (0xdc00 + (c.toNat - 0x10000) % 0x400) (by omega)]
    simp only []
    rw [if_pos (by omega : (0xdc00 : ℕ) ≤ 0xdc00 + (c.toNat - 0x10000) % 0x400 ∧
        0xdc00 + (c.toNat - 0x10000) % 0x400 ≤ 0xdfff)]
    rw [show 0x10000 + (0xd800 + (c.toNat - 0x10000) / 0x400 - 0xd800) * 0x400 +
        (0xdc00 + (c.toNat - 0x10000) % 0x400 - 0xdc00) = c.toNat from by omega]
    rw [Char.ofNat_toNat]

/-- With fuel beyond the number of source characters, parsing a fully
escaped string recovers it up to the closing quote. -/
theorem psb_f_render (cs : List Char) : ∀ f tail, cs.length < f →
    parseStringBodyF f ((cs.map escapeChar).flatten ++ '"' :: tail) = some (cs, tail) := by
  induction cs with
  | nil =>
    intro f tail hf
    match f, hf with
    | f + 1, _ => rfl
  | cons c cs' ih =>
    intro f tail hf
    match f, hf with
    | f + 1, hf =>
      rw [List.map_cons, List.flatten_cons, List.append_assoc, psb_f_escape,
        ih f tail (by simpa using Nat.lt_of_succ_lt_succ hf)]
      rfl

/-- Every escape sequence is at least one character long. -/
theorem escapeChar_length_pos (c : Char) : 1 ≤ (escapeChar c).length := by
  unfold escapeChar
  split_ifs <;> simp [hexSeq]

/-- The escaped form of a string is at least as long as the string. -/
theorem escFlatten_length (cs : List Char) :
    cs.length ≤ ((cs.map escapeChar).flatten).length := by
  induction cs with
  | nil => simp
  | cons c cs' ih =>
    rw [List.map_cons, List.flatten_cons, List.length_append, List.length_cons]
    have := escapeChar_length_pos c
    omega

/-- Parsing a rendered string body recovers the characters and the rest. -/
theorem psb_render (cs tail : List Char) :
    parseStringBody ((cs.map escapeChar).flatten ++ '"' :: tail) = some (cs, tail) := by
  unfold parseStringBody
  apply psb_f_render
  have := escFlatten_length cs
  rw [List.length_append, List.length_cons]
  omega

/-- `skipJsonWs` leaves a list alone when its head is not whitespace. -/
theorem skipJsonWs_cons (c : Char) (l : List Char) (h : jsonWs c = false) :
    skipJsonWs (c :: l) = c :: l := by
  simp [skipJsonWs, List.dropWhile, h]

/-- A decimal digit character has code point between 48 and 57. -/
theorem isDigitChar_toNat (c : Char) (h : isDigitChar c = true) :
    48 ≤ c.toNat ∧ c.toNat ≤ 57 := by
  rw [isDigitChar, Bool.and_eq_true, decide_eq_true_iff, decide_eq_true_iff] at h
  exact ⟨h.1, h.2⟩

/-- A digit is not JSON whitespace and not a closing delimiter. -/
theorem digit_head_facts (c : Char) (h : isDigitChar c = true) :
    jsonWs c = false ∧ c ≠ ']' ∧ c ≠ '}' := by
  have hb := isDigitChar_toNat c h
  refine ⟨?_, ?_, ?_⟩
  · rw [jsonWs]
    have h1 : (c == ' ') = false := by
      rw [beq_eq_false_iff_ne]; intro he; rw [he] at hb; simp at hb
    have h2 : (c == '\t') = false := by
      rw [beq_eq_false_iff_ne]; intro he; rw [he] at hb; simp at hb
    have h3 : (c == '\n') = false := by
      rw [beq_eq_false_iff_ne]; intro he; rw [he] at hb; simp at hb
    have h4 : (c == '\r') = false := by
      rw [beq_eq_false_iff_ne]; intro he; rw [he] at hb; simp at hb
    simp only [List.contains_cons, List.contains_nil, h1, h2, h3, h4, Bool.or_self,
      Bool.or_false, beq_iff_eq]
  · intro he; rw [he] at hb; simp at hb
  · intro he; rw [he] at hb; simp at hb

/-- Every rendered JSON value is non-empty. -/
theorem renderJson_length_pos (j : Json) : 1 ≤ (renderJson j).length := by
  cases j with
  | null => simp [renderJson]
  | bool b => cases b <;> simp [renderJson]
  | int n =>
    rw [show renderJson (.int n) = intChars n from rfl, intChars]
    split_ifs
    · simp
    · have := natChars_ne_nil n.natAbs
      cases h : natChars n.natAbs with
      | nil => exact absurd h this
      | cons c t => simp [h]
  | str s => simp [renderJson, renderQuoted]
  | arr items => simp [renderJson]
  | obj members => simp [renderJson]

/-- A rendered JSON value starts with a character that is not whitespace and
not a closing delimiter. -/
theorem renderJson_head_facts (j : Json) :
    ∃ c t, renderJson j = c :: t ∧ c ≠ ']' ∧ c ≠ '}' ∧ jsonWs c = false := by
  cases j with
  | int n =>
    rw [show renderJson (.int n) = intChars n from rfl, intChars]
    split_ifs
    · refine ⟨'-', _, rfl, ?_, ?_, ?_⟩ <;> decide
    · obtain ⟨c, t, hct, hd⟩ := natChars_head n.natAbs
      obtain ⟨h1, h2, h3⟩ := digit_head_facts c hd
      exact ⟨c, t, hct, h2, h3, h1⟩
  | bool b =>
    cases b
    · refine ⟨'f', _, rfl, ?_, ?_, ?_⟩ <;> decide
    · refine ⟨'t', _, rfl, ?_, ?_, ?_⟩ <;> decide
  | null => refine ⟨'n', _, rfl, ?_, ?_, ?_⟩ <;> decide
  | str s => refine ⟨'"', _, rfl, ?_, ?_, ?_⟩ <;> decide
  | arr items => refine ⟨'[', _, rfl, ?_, ?_, ?_⟩ <;> decide
  | obj members => refine ⟨'{', _, rfl, ?_, ?_, ?_⟩ <;> decide

/-- A rendered non-empty item list starts like its first rendered item. -/
theorem renderList_head (x : Json) (t : List Json) :
    ∃ c tl, renderList (x :: t) = c :: tl ∧ c ≠ ']' ∧ c ≠ '}' ∧ jsonWs c = false := by
  obtain ⟨c, tl0, hct, h1, h2, h3⟩ := renderJson_head_facts x
  cases t with
  | nil => exact ⟨c, tl0, by rw [show renderList [x] = renderJson x from rfl, hct], h1, h2, h3⟩
  | cons y t' =>
    refine ⟨c, tl0 ++ ',' :: renderList (y :: t'), ?_, h1, h2, h3⟩
    rw [show renderList (x :: y :: t') = renderJson x ++ ',' :: renderList (y :: t') from rfl,
      hct, List.cons_append]

/-- A rendered non-empty member list starts with the key's opening quote. -/
theorem renderPairs_cons_head (k : String) (v : Json) (t : List (String × Json)) :
    ∃ tl, renderPairs ((k, v) :: t) = '"' :: tl := by
  cases t with
  | nil =>
    exact ⟨(k.data.map escapeChar).flatten ++ ['"'] ++ ':' :: renderJson v,
      by rw [show renderPairs [(k, v)] = renderQuoted k.data ++ ':' :: renderJson v from rfl,
        renderQuoted, List.cons_append, List.append_assoc]⟩
  | cons m t' =>
    exact ⟨_, by rw [show renderPairs ((k, v) :: m :: t')
            = (renderQuoted k.data ++ (':' :: renderJson v)) ++ (',' :: renderPairs (m :: t'))
          from by rw [renderPairs], renderQuoted, List.cons_append, List.cons_append]⟩

/-- One step of the value parser on a string literal. -/
theorem pjv_str_step (f : Nat) (r : List Char) :
    parseJsonVal (f + 1) ('"' :: r)
      = (parseStringBody r).map (fun p => (Json.str (String.mk p.1), p.2)) := rfl

/-- One step of the value parser on an array opener. -/
theorem pjv_arr_step (f : Nat) (r : List Char) :
    parseJsonVal (f + 1) ('[' :: r)
      = (match skipJsonWs r with
         | ']' :: r' => some (Json.arr [], r')
         | r' => (parseJsonItems f r').map (fun p => (Json.arr p.1, p.2))) := rfl

/-- One step of the value parser on an object opener. -/
theorem pjv_obj_step (f : Nat) (r : List Char) :
    parseJsonVal (f + 1) ('{' :: r)
      = (match skipJsonWs r with
         | '}' :: r' => some (Json.obj [], r')
         | r' => (parseJsonPairs f r').map (fun p => (Json.obj p.1, p.2))) := rfl

/-- One step of the value parser on a negative-number sign. -/
theorem pjv_neg_step (f : Nat) (r : List Char) :
    parseJsonVal (f + 1) ('-' :: r)
      = (match takeDigitRun r with
         | ([], _) => none
         | (ds, r') => some (Json.int (-(digitsVal ds : Int)), r')) := rfl

/-- One step of the value parser on a leading digit. -/
theorem pjv_digit_step (f : Nat) (c : Char) (r : List Char) (h : isDigitChar c = true) :
    parseJsonVal (f + 1) (c :: r)
      = some (.int (digitsVal (takeDigitRun (c :: r)).1), (takeDigitRun (c :: r)).2) := by
  obtain ⟨h1, h2⟩ := isDigitChar_toNat c h
  obtain ⟨m, hm, hm1, hm2⟩ : ∃ m, c = Char.ofNat m ∧ 48 ≤ m ∧ m ≤ 57 :=
    ⟨c.toNat, (Char.ofNat_toNat c).symm, h1, h2⟩
  subst hm
  interval_cases m <;> rfl

/-- One step of the item parser. -/
theorem pji_step (f : Nat) (cs : List Char) :
    parseJsonItems (f + 1) cs
      = (match parseJsonVal f cs with
         | some (j, r) =>
           match skipJsonWs r with
           | ',' :: r2 => (parseJsonItems f r2).map (fun p => (j :: p.1, p.2))
           | ']' :: r2 => some ([j], r2)
           | _ => none
         | none => none) := rfl

/-- One step of the member parser on an opening key quote. -/
theorem pjp_quote_step (f : Nat) (r : List Char) :
    parseJsonPairs (f + 1) ('"' :: r)
      = (match parseStringBody r with
         | some (k, r1) =>
           match skipJsonWs r1 with
           | ':' :: r2 =>
             (match parseJsonVal f r2 with
              | some (v, r3) =>
                match skipJsonWs r3 with
                | ',' :: r4 => (parseJsonPairs f r4).map (fun p => ((String.mk k, v) :: p.1, p.2))
                | '}' :: r4 => some ([(String.mk k, v)], r4)
                | _ => none
              | none => none)
           | _ => none
         | none => none) := rfl

/-- The renderer/parser round trip, by induction on parser fuel: any rendered
value followed by a non-digit tail parses back to itself; non-empty rendered
item and member lists parse back up to their closing delimiter. -/
theorem rt_all : ∀ f : Nat,
    (∀ j rest, (renderJson j).length < f → numStop rest = true →
      parseJsonVal f (renderJson j ++ rest) = some (j, rest)) ∧
    (∀ xs rest, xs ≠ [] → (renderList xs).length + 1 < f →
      parseJsonItems f (renderList xs ++ ']' :: rest) = some (xs, rest)) ∧
    (∀ ms rest, ms ≠ [] → (renderPairs ms).length + 1 < f →
      parseJsonPairs f (renderPairs ms ++ '}' :: rest) = some (ms, rest)) := by
  intro f
  induction f with
  | zero =>
    exact ⟨fun j rest h _ => absurd h (Nat.not_lt_zero _),
      fun xs rest _ h => absurd h (Nat.not_lt_zero _),
      fun ms rest _ h => absurd h (Nat.not_lt_zero _)⟩
  | succ f ih =>
    obtain ⟨ihv, ihi, ihp⟩ := ih
    refine ⟨?_, ?_, ?_⟩
    · intro j rest hlen hstop
      cases j with
      | null => rfl
      | bool b => cases b <;> rfl
      | int n =>
        rw [show renderJson (.int n) = intChars n from rfl, intChars]
        by_cases hn : n < 0
        · rw [if_pos hn, List.cons_append, pjv_neg_step,
            takeDigitRun_append (natChars_all_digits n.natAbs) hstop]
          obtain ⟨c, t, hct, hd⟩ := natChars_head n.natAbs
          rw [hct]
          simp only []
          rw [← hct, digitsVal_natChars]
          have hnn : -(n.natAbs : Int) = n := by omega
          rw [hnn]
        · rw [if_neg hn]
          obtain ⟨c, t, hct, hd⟩ := natChars_head n.natAbs
          rw [hct, List.cons_append, pjv_digit_step f c _ hd, ← List.cons_append, ← hct,
            takeDigitRun_append (natChars_all_digits n.natAbs) hstop]
          simp only []
          rw [digitsVal_natChars]
          have hnn : (n.natAbs : Int) = n := by omega
          rw [hnn]
      | str s =>
        have hsplit : renderJson (.str s) ++ rest
            = '"' :: ((s.data.map escapeChar).flatten ++ '"' :: rest) := by
          rw [show renderJson (.str s) = renderQuoted s.data from rfl, renderQuoted]
          simp [List.append_assoc]
        rw [hsplit, pjv_str_step, psb_render]
        rfl
      | arr xs =>
        cases xs with
        | nil => rfl
        | cons x t =>
          have hsplit : renderJson (.arr (x :: t)) ++ rest
              = '[' :: (renderList (x :: t) ++ ']' :: rest) := by
            rw [show renderJson (.arr (x :: t)) = '[' :: (renderList (x :: t) ++ [']'])
              from rfl]
            simp [List.append_assoc]
          have hlen' : (renderList (x :: t)).length + 1 < f := by
            rw [show renderJson (.arr (x :: t)) = '[' :: (renderList (x :: t) ++ [']'])
              from rfl] at hlen
            simp [List.length_cons, List.length_append] at hlen
            omega
          rw [hsplit, pjv_arr_step]
          obtain ⟨c, tl, hre, hnb, hnc, hws⟩ := renderList_head x t
          have hskip : skipJsonWs (renderList (x :: t) ++ ']' :: rest)
              = renderList (x :: t) ++ ']' :: rest := by
            rw [hre, List.cons_append]
            exact skipJsonWs_cons _ _ hws
          rw [hskip]
          split
          · rename_i r' heq
            rw [hre, List.cons_append] at heq
            injection heq with h1 h2
            exact absurd h1 hnb
          · rw [ihi (x :: t) rest (List.cons_ne_nil x t) hlen']
            rfl
      | obj ms =>
        cases ms with
        | nil => rfl
        | cons m t =>
          obtain ⟨k, v⟩ := m
          have hsplit : renderJson (.obj ((k, v) :: t)) ++ rest
              = '{' :: (renderPairs ((k, v) :: t) ++ '}' :: rest) := by
            rw [show renderJson (.obj ((k, v) :: t))
                = '{' :: (renderPairs ((k, v) :: t) ++ ['}']) from rfl]
            simp [List.append_assoc]
          have hlen' : (renderPairs ((k, v) :: t)).length + 1 < f := by
            rw [show renderJson (.obj ((k, v) :: t))
                = '{' :: (renderPairs ((k, v) :: t) ++ ['}']) from rfl] at hlen
            simp [List.length_cons, List.length_append] at hlen
            omega
          rw [hsplit, pjv_obj_step]
          obtain ⟨tl, hq⟩ := renderPairs_cons_head k v t
          have hskip : skipJsonWs (renderPairs ((k, v) :: t) ++ '}' :: rest)
              = renderPairs ((k, v) :: t) ++ '}' :: rest := by
            rw [hq, List.cons_append]
            exact skipJsonWs_cons _ _ (by decide)
          rw [hskip]
          split
          · rename_i r' heq
            rw [hq, List.cons_append] at heq
            injection heq with h1 h2
            exact absurd h1 (by decide)
          · rw [ihp ((k, v) :: t) rest (List.cons_ne_nil _ t) hlen']
            rfl
    · intro xs rest hne hlen
      cases xs with
      | nil => exact absurd rfl hne
      | cons x t =>
        cases t with
        | nil =>
          have hx : (renderJson x).length < f := by
            rw [show renderList [x] = renderJson x from rfl] at hlen
            omega
          rw [pji_step, show renderList [x] = renderJson x from rfl,
            ihv x (']' :: rest) hx (by rfl)]
          rfl
        | cons y t' =>
          have hrl : renderList (x :: y :: t') = renderJson x ++ ',' :: renderList (y :: t') := by
            rw [renderList]
          have hsplit : renderList (x :: y :: t') ++ ']' :: rest
              = renderJson x ++ (',' :: (renderList (y :: t') ++ ']' :: rest)) := by
            rw [hrl]
            simp [List.append_assoc]
          have hlx := renderJson_length_pos x
          have hx : (renderJson x).length < f := by
            rw [hrl] at hlen
            simp [List.length_append, List.length_cons] at hlen
            omega
          have hrec : (renderList (y :: t')).length + 1 < f := by
            rw [hrl] at hlen
            simp [List.length_append, List.length_cons] at hlen
            omega
          rw [pji_step, hsplit, ihv x _ hx (by rfl)]
          show (parseJsonItems f (renderList (y :: t') ++ ']' :: rest)).map
              (fun p => (x :: p.1, p.2)) = some (x :: y :: t', rest)
          rw [ihi (y :: t') rest (List.cons_ne_nil y t') hrec]
          rfl
    · intro ms rest hne hlen
      cases ms with
      | nil => exact absurd rfl hne
      | cons m t =>
        obtain ⟨k, v⟩ := m
        cases t with
        | nil =>
          have hrp : renderPairs [(k, v)] = renderQuoted k.data ++ ':' :: renderJson v := rfl
          have hsplit : renderPairs [(k, v)] ++ '}' :: rest
              = '"' :: ((k.data.map escapeChar).flatten
                  ++ '"' :: (':' :: (renderJson v ++ '}' :: rest))) := by
            rw [hrp, renderQuoted]
            simp [List.append_assoc]
          have hv : (renderJson v).length < f := by
            rw [hrp, renderQuoted] at hlen
            simp [List.length_append, List.length_cons] at hlen
            omega
          rw [hsplit, pjp_quote_step, psb_render]
          simp only []
          rw [show skipJsonWs (':' :: (renderJson v ++ '}' :: rest))
              = ':' :: (renderJson v ++ '}' :: rest) from rfl]
          simp only []
          rw [ihv v ('}' :: rest) hv (by rfl)]
          rfl
        | cons m2 t' =>
          have hrp : renderPairs ((k, v) :: m2 :: t')
              = (renderQuoted k.data ++ (':' :: renderJson v)) ++ (',' :: renderPairs (m2 :: t')) := by
            rw [renderPairs]
          have hsplit : renderPairs ((k, v) :: m2 :: t') ++ '}' :: rest
              = '"' :: ((k.data.map escapeChar).flatten
                  ++ '"' :: (':' :: (renderJson v
                      ++ (',' :: (renderPairs (m2 :: t') ++ '}' :: rest))))) := by
            rw [hrp, renderQuoted]
            simp [List.append_assoc]
          have hlv := renderJson_length_pos v
          have hv : (renderJson v).length < f := by
            rw [hrp, renderQuoted] at hlen
            simp [List.length_append, List.length_cons] at hlen
            omega
          have hp : (renderPairs (m2 :: t')).length + 1 < f := by
            rw [hrp, renderQuoted] at hlen
            simp [List.length_append, List.length_cons] at hlen
            omega
          rw [hsplit, pjp_quote_step, psb_render]
          simp only []
          rw [show skipJsonWs (':' :: (renderJson v
              ++ (',' :: (renderPairs (m2 :: t') ++ '}' :: rest))))
              = ':' :: (renderJson v ++ (',' :: (renderPairs (m2 :: t') ++ '}' :: rest)))
            from rfl]
          simp only []
          rw [ihv v _ hv (by rfl)]
          simp only []
          rw [show skipJsonWs (',' :: (renderPairs (m2 :: t') ++ '}' :: rest))
              = ',' :: (renderPairs (m2 :: t') ++ '}' :: rest) from rfl]
          simp only []
          rw [ihp (m2 :: t') rest (List.cons_ne_nil m2 t') hp]
          rfl

/-- Serializing any JSON value and parsing it back returns the same value. -/
theorem json_loads_dumps (j : Json) : json_loads (json_dumps j) = some j := by
  have h := (rt_all ((renderJson j).length + 1)).1 j [] (by omega) rfl
  rw [List.append_nil] at h
  rw [json_loads, json_dumps, show (String.mk (renderJson j)).data = renderJson j from rfl, h]
  rfl

/-- C4.  Round trip of the executor's serialization: for every fetched result
set and row bound — hence for every payload `run_postgres_query` builds and
returns as `.ok (json_dumps (payloadJson (buildPayload fetched max_rows)))` —
decoding the returned JSON text with the standard parser succeeds and yields
exactly the serialized object, whose `rows` field is a list of the same length
as the payload's `returned_rows` and whose `columns` field is a list of the
same length as the payload's `columns`. -/
theorem payload_roundtrip (fetched : List PgRow) (max_rows : Int) :
    json_loads (json_dumps (payloadJson (buildPayload fetched max_rows)))
        = some (payloadJson (buildPayload fetched max_rows)) ∧
    jsonField (payloadJson (buildPayload fetched max_rows)) "rows"
        = some (.arr ((buildPayload fetched max_rows).rows.map rowJson)) ∧
    ((buildPayload fetched max_rows).rows.map rowJson).length
        = (buildPayload fetched max_rows).returned_rows ∧
    jsonField (payloadJson (buildPayload fetched max_rows)) "columns"
        = some (.arr ((buildPayload fetched max_rows).columns.map Json.str)) ∧
    ((buildPayload fetched max_rows).columns.map Json.str).length
        = (buildPayload fetched max_rows).columns.length := by
  refine ⟨json_loads_dumps _, rfl, ?_, rfl, ?_⟩
  · rw [List.length_map]
    simp [buildPayload]
  · rw [List.length_map]
